import Mathlib

/-!
Verification of the baezi import engine (Banking4 → ezbookkeeping).

This file shallowly embeds the reconciliation-relevant parts of the
repository: the Python string-splitting used by the comment-marker parser
(`TransactionImportService._load_existing_ids`), the transaction model
(`baezi.models`), the transfer matcher (`baezi.importers.transfer_matcher`),
the category service (`baezi.services.category_service`), the payload
builder and the run orchestration of
`baezi.services.transaction_service`.  Text is modelled as `List Char`
(Python `str` is a sequence of code points); booking dates as integers
counting days (all dates are parsed from `"%Y-%m-%d"`, so differences are
exact whole days and the string comparison used for the date filter agrees
with numeric comparison); monetary amounts as rationals.
-/

namespace Baezi

/-- Text is a list of characters, matching Python `str` code-point
semantics for slicing and splitting. -/
abbrev Str := List Char

/-- The reconciliation marker prefix `"[B4ID:"` used in transaction
comments (`transaction_service.py`). -/
def marker : Str := "[B4ID:".data

/-- Tail of the marker after its opening bracket, i.e. `"B4ID:"`. -/
def markerTail : Str := "B4ID:".data

/-- Prepend a character to the first chunk of a split result
(used by the faithful model of Python `str.split`). -/
def consHead (c : Char) : List Str → List Str
  | [] => [[c]]
  | hd :: tl => (c :: hd) :: tl

/-- Fuel-driven worker for `pysplit`.  The fuel is an upper bound on the
length of the remaining input, so the `0`-fuel branch is unreachable in
`pysplit` itself; fuel makes the definition structurally recursive and
hence kernel-computable. -/
def pysplitF (a : Char) (sep : Str) : Nat → Str → List Str
  | 0, s => [s]
  | _ + 1, [] => [[]]
  | n + 1, c :: rest =>
    if (a :: sep).isPrefixOf (c :: rest) then
      [] :: pysplitF a sep n (rest.drop sep.length)
    else
      consHead c (pysplitF a sep n rest)

/-- Python `s.split(sep)` for the non-empty separator `a :: sep`:
splits `s` at each non-overlapping occurrence of the separator, scanning
left to right.  `pysplit a sep [] = [[]]` like Python's
`"".split(sep) == [""]`. -/
def pysplit (a : Char) (sep : Str) (s : Str) : List Str :=
  pysplitF a sep s.length s

theorem pysplitF_congr (a : Char) (sep : Str) :
    ∀ (n m : Nat) (s : Str), s.length ≤ n → s.length ≤ m →
      pysplitF a sep n s = pysplitF a sep m s := by
  intro n
  induction n with
  | zero =>
    intro m s hn _
    have hs : s = [] := List.eq_nil_of_length_eq_zero (Nat.le_zero.mp hn)
    subst hs
    cases m <;> rfl
  | succ n ih =>
    intro m s hn hm
    cases s with
    | nil => cases m <;> rfl
    | cons c rest =>
      cases m with
      | zero => simp at hm
      | succ m =>
        simp only [pysplitF]
        by_cases hp : (a :: sep).isPrefixOf (c :: rest)
        · rw [if_pos hp, if_pos hp]
          have h1 : (rest.drop sep.length).length ≤ n := by
            have := List.length_drop sep.length rest
            simp only [List.length_cons] at hn
            omega
          have h2 : (rest.drop sep.length).length ≤ m := by
            have := List.length_drop sep.length rest
            simp only [List.length_cons] at hm
            omega
          rw [ih m (rest.drop sep.length) h1 h2]
        · rw [if_neg hp, if_neg hp]
          have h1 : rest.length ≤ n := by
            simp only [List.length_cons] at hn; omega
          have h2 : rest.length ≤ m := by
            simp only [List.length_cons] at hm; omega
          rw [ih m rest h1 h2]

theorem pysplit_nil (a : Char) (sep : Str) : pysplit a sep [] = [[]] := rfl

theorem pysplit_cons_pos (a : Char) (sep : Str) (c : Char) (rest : Str)
    (h : (a :: sep).isPrefixOf (c :: rest)) :
    pysplit a sep (c :: rest) = [] :: pysplit a sep (rest.drop sep.length) := by
  show pysplitF a sep (c :: rest).length (c :: rest) = _
  simp only [List.length_cons, pysplitF, h, if_true]
  rw [pysplitF_congr a sep rest.length (rest.drop sep.length).length
        (rest.drop sep.length)]
  · rfl
  · simp [List.length_drop]
  · exact Nat.le_refl _

theorem pysplit_cons_neg (a : Char) (sep : Str) (c : Char) (rest : Str)
    (h : ¬ (a :: sep).isPrefixOf (c :: rest)) :
    pysplit a sep (c :: rest) = consHead c (pysplit a sep rest) := by
  show pysplitF a sep (c :: rest).length (c :: rest) = _
  simp only [List.length_cons, pysplitF, h, if_false]
  rfl

/-! ### Occurrence toolkit

An occurrence of a pattern `p` at index `i` of `s` is `p <+: s.drop i`.
These lemmas relate occurrences to `List.IsInfix` and let us locate the
first occurrence of a separator in strings of the shapes the importer
builds. -/

theorem infix_iff_occ (p s : Str) : p <:+: s ↔ ∃ i, p <+: s.drop i := by
  constructor
  · rintro ⟨pre, suf, rfl⟩
    exact ⟨pre.length, by rw [List.append_assoc, List.drop_left]; exact List.prefix_append p suf⟩
  · rintro ⟨i, h⟩
    exact h.isInfix.trans (List.drop_suffix i s).isInfix

theorem no_occ_of_not_infix {p s : Str} (hp : ¬ p <:+: s) (i : Nat) :
    ¬ p.isPrefixOf (s.drop i) := fun h =>
  hp ((infix_iff_occ p s).mpr ⟨i, List.isPrefixOf_iff_prefix.mp h⟩)

theorem prefix_getElem? {p l : Str} (h : p <+: l) {j : Nat} (hj : j < p.length) :
    l[j]? = p[j]? := by
  obtain ⟨t, rfl⟩ := h
  rw [List.getElem?_append, if_pos hj]

theorem prefix_of_append_of_le {p x y : Str} (h : p <+: x ++ y)
    (hl : p.length ≤ x.length) : p <+: x := by
  have := List.prefix_iff_eq_take.mp h
  rw [List.take_append_of_le_length hl] at this
  rw [this]
  exact List.take_prefix _ _

theorem marker_length : marker.length = 6 := rfl

/-- If the marker does not occur in `x` or in `y` and the separating
character `c` is not a marker character, the marker does not occur in
`x ++ c :: y`; in particular no occurrence can straddle the boundary. -/
theorem marker_not_infix_concat {x y : Str} {c : Char} (hx : ¬ marker <:+: x)
    (hy : ¬ marker <:+: y) (hc : c ∉ marker) : ¬ marker <:+: (x ++ c :: y) := by
  intro h
  obtain ⟨i, hp⟩ := (infix_iff_occ _ _).mp h
  by_cases hi : i + 6 ≤ x.length
  · rw [List.drop_append_of_le_length (by omega)] at hp
    have h1 : marker <+: x.drop i := by
      refine prefix_of_append_of_le hp ?_
      rw [marker_length, List.length_drop]; omega
    exact hx (h1.isInfix.trans (List.drop_suffix i x).isInfix)
  · by_cases hix : i ≤ x.length
    · have hj : x.length - i < marker.length := by rw [marker_length]; omega
      have h1 := prefix_getElem? hp hj
      rw [List.getElem?_drop] at h1
      have h2 : i + (x.length - i) = x.length := by omega
      rw [h2, List.getElem?_append, if_neg (by omega)] at h1
      simp only [Nat.sub_self, List.getElem?_cons_zero] at h1
      exact hc (List.getElem?_mem h1.symm)
    · rw [List.drop_append_eq_append_drop,
          List.drop_eq_nil_of_le (by omega), List.nil_append] at hp
      obtain ⟨k, hk⟩ : ∃ k, i - x.length = k + 1 := ⟨i - x.length - 1, by omega⟩
      rw [hk, List.drop_succ_cons] at hp
      exact hy (hp.isInfix.trans (List.drop_suffix _ y).isInfix)

/-- If a prefix string `x` contains no `'['`, the marker occurs in
`x ++ y` only if it occurs in `y`. -/
theorem no_lbrack_not_infix {x y : Str} (hx : '[' ∉ x) (hy : ¬ marker <:+: y) :
    ¬ marker <:+: (x ++ y) := by
  intro h
  obtain ⟨i, hp⟩ := (infix_iff_occ _ _).mp h
  by_cases hi : i < x.length
  · have h1 := prefix_getElem? hp (j := 0) (by rw [marker_length]; omega)
    rw [List.getElem?_drop, Nat.add_zero, List.getElem?_append, if_pos hi] at h1
    exact hx (List.getElem?_mem (l := x) (a := '[') h1)
  · rw [List.drop_append_eq_append_drop,
        List.drop_eq_nil_of_le (by omega), List.nil_append] at hp
    exact hy (hp.isInfix.trans (List.drop_suffix _ y).isInfix)

theorem not_infix_take {p x : Str} (n : Nat) (hx : ¬ p <:+: x) :
    ¬ p <:+: x.take n := fun h => hx (h.trans (List.take_prefix n x).isInfix)

/-- Splitting on a separator whose text contains no early occurrence:
`pysplit` cuts exactly at the explicitly appended separator. -/
theorem pysplit_append (a : Char) (sep : Str) (pre post : Str)
    (h : ∀ i < pre.length, ¬ (a :: sep).isPrefixOf ((pre ++ (a :: sep) ++ post).drop i)) :
    pysplit a sep (pre ++ (a :: sep) ++ post) = pre :: pysplit a sep post := by
  induction pre with
  | nil =>
    simp only [List.nil_append, List.cons_append]
    rw [pysplit_cons_pos a sep a (sep ++ post)
          (List.isPrefixOf_iff_prefix.mpr (List.cons_append a sep post ▸
            List.prefix_append (a :: sep) post))]
    rw [List.drop_left]
  | cons c pre' ih =>
    have h0 : ¬ (a :: sep).isPrefixOf (c :: (pre' ++ (a :: sep) ++ post)) := by
      have := h 0 (by simp)
      simpa using this
    have hrest : ∀ i < pre'.length,
        ¬ (a :: sep).isPrefixOf ((pre' ++ (a :: sep) ++ post).drop i) := by
      intro i hi
      have := h (i + 1) (by simp; omega)
      simpa [List.cons_append] using this
    simp only [List.cons_append]
    rw [pysplit_cons_neg a sep c _ (by simpa [List.cons_append] using h0),
        show pre' ++ (a :: sep) ++ post = pre' ++ ((a :: sep) ++ post) from
          List.append_assoc _ _ _]
    rw [← List.append_assoc, ih hrest]
    rfl

/-- If the separator never occurs in `s`, `pysplit` returns `[s]`. -/
theorem pysplit_no_occ (a : Char) (sep : Str) (s : Str)
    (h : ∀ i, ¬ (a :: sep).isPrefixOf (s.drop i)) : pysplit a sep s = [s] := by
  induction s with
  | nil => rfl
  | cons c rest ih =>
    rw [pysplit_cons_neg a sep c rest (h 0)]
    rw [ih (fun i => by simpa using h (i + 1))]
    rfl

theorem marker_not_infix_nil : ¬ marker <:+: ([] : Str) := by
  intro h
  have := h.length_le
  simp [marker_length] at this

theorem pysplit_single_append (c : Char) (x y : Str) (hx : c ∉ x) :
    pysplit c [] (x ++ c :: y) = x :: pysplit c [] y := by
  have hshape : x ++ [c] ++ y = x ++ c :: y := by simp
  rw [← hshape]
  apply pysplit_append
  intro i hi hocc
  have hp := List.isPrefixOf_iff_prefix.mp hocc
  have h1 := prefix_getElem? hp (j := 0) (by simp)
  rw [List.getElem?_drop, Nat.add_zero, hshape, List.getElem?_append, if_pos hi] at h1
  simp only [List.getElem?_cons_zero] at h1
  exact hx (List.getElem?_mem h1)

theorem pysplit_single_no (c : Char) (x : Str) (hx : c ∉ x) :
    pysplit c [] x = [x] := by
  apply pysplit_no_occ
  intro i hocc
  have hp := List.isPrefixOf_iff_prefix.mp hocc
  have h1 := prefix_getElem? hp (j := 0) (by simp)
  rw [List.getElem?_drop, Nat.add_zero] at h1
  simp only [List.getElem?_cons_zero] at h1
  exact hx (List.getElem?_mem h1)

/-- The marker occurs in `pre ++ marker ++ post` for the first time no
earlier than position `pre.length`, provided it is not an infix of `pre`:
an occurrence straddling into the appended marker would need `'['` at a
non-zero marker position. -/
theorem pysplit_marker (pre post : Str) (hpre : ¬ marker <:+: pre) :
    pysplit '[' markerTail (pre ++ marker ++ post) = pre :: pysplit '[' markerTail post := by
  have hm : ('[' :: markerTail) = marker := rfl
  rw [← hm]
  apply pysplit_append
  rw [hm]
  intro i hi hocc
  have hp := List.isPrefixOf_iff_prefix.mp hocc
  rw [List.append_assoc] at hp
  by_cases hle : i + 6 ≤ pre.length
  · rw [List.drop_append_of_le_length (by omega)] at hp
    have h1 : marker <+: pre.drop i := by
      refine prefix_of_append_of_le hp ?_
      rw [marker_length, List.length_drop]; omega
    exact hpre (h1.isInfix.trans (List.drop_suffix i pre).isInfix)
  · obtain ⟨j, hj1, hj5, hij⟩ : ∃ j, 1 ≤ j ∧ j ≤ 5 ∧ i + j = pre.length :=
      ⟨pre.length - i, by omega, by omega, by omega⟩
    have h1 := prefix_getElem? hp (j := j) (by rw [marker_length]; omega)
    rw [List.getElem?_drop, hij, List.getElem?_append, if_neg (by omega),
        Nat.sub_self] at h1
    have h2 : marker[j]? = some '[' := by
      rw [← h1]
      rfl
    interval_cases j <;> exact absurd h2 (by decide)

/-! ### Comment building and parsing

`TransactionImportService._create_transaction_payload` builds the comment
`f"{description[:200]} [B4ID:{b4_id}]"`;
`TransactionImportService._load_existing_ids` recovers ids from comments by
`comment.split("[B4ID:")[1].split("]")[0].split("_")`. -/

/-- Comment of a created transaction: the description truncated to 200
characters, a space, and the `[B4ID:<id>]` marker
(`transaction_service.py` lines 352–356). -/
def mkComment (description b4_id : Str) : Str :=
  description.take 200 ++ " [B4ID:".data ++ b4_id ++ "]".data

/-- Ids recovered from a single comment by `_load_existing_ids`: if the
marker prefix occurs, take the text after its first occurrence, cut at the
first `]`, and split the remainder on `_`; otherwise nothing
(`transaction_service.py` lines 82–89). -/
def parseCommentIds (comment : Str) : List Str :=
  if marker <:+: comment then
    pysplit '_' []
      ((pysplit ']' [] ((pysplit '[' markerTail comment).getD 1 [])).headD [])
  else []

theorem mkComment_shape (description b4_id : Str) :
    mkComment description b4_id =
      (description.take 200 ++ [' ']) ++ marker ++ (b4_id ++ [']']) := by
  simp [mkComment, marker]

/-- Round trip through the comment parser: for a well-formed id (no `]`
and not containing the marker) in a description free of the marker, the
parser recovers exactly the `_`-split of the id. -/
theorem parse_mkComment (desc b4_id : Str) (hdesc : ¬ marker <:+: desc)
    (hid : ¬ marker <:+: b4_id) (hrb : ']' ∉ b4_id) :
    parseCommentIds (mkComment desc b4_id) = pysplit '_' [] b4_id := by
  rw [mkComment_shape]
  have hpre : ¬ marker <:+: (desc.take 200 ++ [' ']) := by
    have : (desc.take 200 ++ [' ']) = desc.take 200 ++ ' ' :: [] := rfl
    rw [this]
    exact marker_not_infix_concat (not_infix_take 200 hdesc) marker_not_infix_nil
      (by decide)
  have hpost : ¬ marker <:+: (b4_id ++ [']']) := by
    have : (b4_id ++ [']']) = b4_id ++ ']' :: [] := rfl
    rw [this]
    exact marker_not_infix_concat hid marker_not_infix_nil (by decide)
  have hguard : marker <:+: ((desc.take 200 ++ [' ']) ++ marker ++ (b4_id ++ [']'])) :=
    ⟨desc.take 200 ++ [' '], b4_id ++ [']'], rfl⟩
  rw [parseCommentIds, if_pos hguard, pysplit_marker _ _ hpre,
      pysplit_no_occ '[' markerTail _ (fun i => no_occ_of_not_infix hpost i)]
  have hgetd : ([desc.take 200 ++ [' '], b4_id ++ [']']] : List Str).getD 1 [] =
      b4_id ++ [']'] := rfl
  rw [hgetd, pysplit_single_append ']' b4_id [] hrb]
  rfl

/-- Single-id round trip: a comment created for id `A` (no `_`, `]` or
marker inside `A`) parses back to `[A]`. -/
theorem parse_mkComment_single (desc b4_id : Str) (hdesc : ¬ marker <:+: desc)
    (hid : ¬ marker <:+: b4_id) (hrb : ']' ∉ b4_id) (hus : '_' ∉ b4_id) :
    parseCommentIds (mkComment desc b4_id) = [b4_id] := by
  rw [parse_mkComment desc b4_id hdesc hid hrb]
  exact pysplit_single_no '_' b4_id hus

/-- Combined-id round trip: a comment created for the combined transfer id
`A_B` parses back to `[A, B]`. -/
theorem parse_mkComment_pair (desc id1 id2 : Str) (hdesc : ¬ marker <:+: desc)
    (h1m : ¬ marker <:+: id1) (h1b : ']' ∉ id1) (h1u : '_' ∉ id1)
    (h2m : ¬ marker <:+: id2) (h2b : ']' ∉ id2) (h2u : '_' ∉ id2) :
    parseCommentIds (mkComment desc (id1 ++ '_' :: id2)) = [id1, id2] := by
  rw [parse_mkComment desc (id1 ++ '_' :: id2) hdesc
        (marker_not_infix_concat h1m h2m (by decide))
        (by simp [List.mem_append]; exact ⟨h1b, by simpa using h2b⟩)]
  rw [pysplit_single_append '_' id1 id2 h1u, pysplit_single_no '_' id2 h2u]

/-! ### Data model (`baezi/models.py`)

Booking dates are modelled as integers counting days: every date is parsed
with `datetime.strptime(_, "%Y-%m-%d")`, so all datetimes are midnights,
`timedelta.days` of a difference is the exact signed day count, and the
ISO-string comparison used by the date filter agrees with integer
comparison.  Amounts (`float`) are modelled as rationals. -/

/-- ezbookkeeping transaction types (`TransactionType`). -/
inductive TransactionType | INCOME | EXPENSE | TRANSFER
deriving DecidableEq

/-- Wire value of a transaction type (`INCOME = 2`, `EXPENSE = 3`,
`TRANSFER = 4`). -/
def TransactionType.value : TransactionType → ℤ
  | .INCOME => 2
  | .EXPENSE => 3
  | .TRANSFER => 4

/-- Banking4 transaction direction (`Direction`). -/
inductive Direction | CREDIT | DEBIT
deriving DecidableEq

/-- Banking4 booking status (`BookingStatus`). -/
inductive BookingStatus | BOOKED | PENDING
deriving DecidableEq

/-- Banking4 transaction model (`B4Transaction`). -/
structure B4Transaction where
  id : Str
  booking_date : ℤ
  amount : ℚ
  description : Str
  direction : Direction
  category : Str
  booking_status : BookingStatus
  account_id : Str
deriving DecidableEq

/-- `Direction(value)` enum construction: fails on anything but
`"CRDT"`/`"DBIT"` (a `ValueError` in Python). -/
def parseDirection (s : Str) : Option Direction :=
  if s = "CRDT".data then some .CREDIT
  else if s = "DBIT".data then some .DEBIT
  else none

/-- `BookingStatus(value)` enum construction: fails on anything but
`"BOOK"`/`"PDNG"`. -/
def parseBookingStatus (s : Str) : Option BookingStatus :=
  if s = "BOOK".data then some .BOOKED
  else if s = "PDNG".data then some .PENDING
  else none

/-- One raw JSON entry of a source export file.  An outer `none` models a
missing key; for `BookgDt` and `Amt` the inner `Option` models whether
`datetime.strptime` / `float` succeeds on the present value. -/
structure RawRec where
  Id : Option Str
  BookgDt : Option (Option ℤ)
  Amt : Option (Option ℚ)
  RmtInf : Option Str
  CdtDbtInd : Option Str
  Category : Option Str
  BookgSts : Option Str
deriving DecidableEq

/-- `B4Transaction.from_json`: requires `Id`, `BookgDt`, `Amt`, `RmtInf`,
`CdtDbtInd` to be present, stores the absolute value of the amount,
defaults `Category` to `""` and `BookgSts` to `"BOOK"`; any parse failure
(`ValueError`) is `none`. -/
def B4Transaction.from_json (data : RawRec) (account_id : Str) :
    Option B4Transaction :=
  match data.Id, data.BookgDt, data.Amt, data.RmtInf, data.CdtDbtInd with
  | some i, some od, some oa, some r, some cd =>
    match od, oa, parseDirection cd, parseBookingStatus (data.BookgSts.getD "BOOK".data) with
    | some d, some amt, some dir, some bs =>
      some ⟨i, d, |amt|, r, dir, data.Category.getD [], bs, account_id⟩
    | _, _, _, _ => none
  | _, _, _, _, _ => none

/-- `B4Transaction.is_booked`. -/
def B4Transaction.is_booked (t : B4Transaction) : Bool :=
  t.booking_status = BookingStatus.BOOKED

/-- `B4Transaction.is_transfer`: the category is the reserved transfer
marker name `"Umbuchung"`. -/
def B4Transaction.is_transfer (t : B4Transaction) : Bool :=
  t.category = "Umbuchung".data

/-- `B4Transaction.is_income`. -/
def B4Transaction.is_income (t : B4Transaction) : Bool :=
  t.direction = Direction.CREDIT

/-- `B4Transaction.transaction_type`. -/
def B4Transaction.transaction_type (t : B4Transaction) : TransactionType :=
  if t.is_transfer then .TRANSFER
  else if t.direction = Direction.CREDIT then .INCOME else .EXPENSE

/-- Pair of matched transfer legs (`TransferPair`). -/
structure TransferPair where
  source_tx : B4Transaction
  dest_tx : B4Transaction
deriving DecidableEq

/-- `TransferPair.sender`: the debit-side record. -/
def TransferPair.sender (p : TransferPair) : B4Transaction :=
  if p.source_tx.direction = Direction.DEBIT then p.source_tx else p.dest_tx

/-- `TransferPair.receiver`: the credit-side record. -/
def TransferPair.receiver (p : TransferPair) : B4Transaction :=
  if p.dest_tx.direction = Direction.CREDIT then p.dest_tx else p.source_tx

/-- `TransferPair.combined_id = f"{source_tx.id}_{dest_tx.id}"`. -/
def TransferPair.combined_id (p : TransferPair) : Str :=
  p.source_tx.id ++ '_' :: p.dest_tx.id

/-- `TransferPair.amount`. -/
def TransferPair.amount (p : TransferPair) : ℚ := p.source_tx.amount

/-- `TransferPair.date`: the earlier of the two booking dates. -/
def TransferPair.date (p : TransferPair) : ℤ :=
  min p.source_tx.booking_date p.dest_tx.booking_date

/-! ### Transfer matcher (`baezi/importers/transfer_matcher.py`) -/

/-- `TransferMatcher._is_match`: equal amount, different accounts,
opposite direction, booking dates within the tolerance (in whole days,
inclusive). -/
def is_match (tolerance_days : ℤ) (tx1 tx2 : B4Transaction) : Bool :=
  tx1.amount = tx2.amount ∧ tx1.account_id ≠ tx2.account_id ∧
    tx1.direction ≠ tx2.direction ∧
    |tx1.booking_date - tx2.booking_date| ≤ tolerance_days

/-- `TransferMatcher._find_partner`: first candidate that is neither
processed nor already imported and matches. -/
def find_partner (tolerance_days : ℤ) (tx : B4Transaction)
    (candidates : List B4Transaction) (processed existing_ids : List Str) :
    Option B4Transaction :=
  candidates.find? fun c =>
    !processed.contains c.id && !existing_ids.contains c.id &&
      is_match tolerance_days tx c

/-- Worker for `find_matches`: left-to-right scan with a processed set. -/
def find_matches_aux (tolerance_days : ℤ) (existing_ids : List Str) :
    List B4Transaction → List Str → List TransferPair × List B4Transaction
  | [], _ => ([], [])
  | tx1 :: rest, processed =>
    if processed.contains tx1.id || existing_ids.contains tx1.id then
      find_matches_aux tolerance_days existing_ids rest processed
    else
      match find_partner tolerance_days tx1 rest processed existing_ids with
      | some partner =>
        let r := find_matches_aux tolerance_days existing_ids rest
          (processed ++ [tx1.id, partner.id])
        (⟨tx1, partner⟩ :: r.1, r.2)
      | none =>
        let r := find_matches_aux tolerance_days existing_ids rest
          (processed ++ [tx1.id])
        (r.1, tx1 :: r.2)

/-- `TransferMatcher.find_matches`: returns matched pairs and the
unmatched remainder, skipping records whose ids are already imported. -/
def find_matches (tolerance_days : ℤ) (transfers : List B4Transaction)
    (existing_ids : List Str) : List TransferPair × List B4Transaction :=
  find_matches_aux tolerance_days existing_ids transfers []

/-! ### Structure lemmas for the matcher -/
theorem contains_true_iff {l : List Str} {a : Str} :
    l.contains a = true ↔ a ∈ l := List.elem_iff

theorem contains_false_iff {l : List Str} {a : Str} :
    l.contains a = false ↔ a ∉ l := by
  rw [Bool.eq_false_iff]
  exact not_congr List.elem_iff

theorem not_skip_parts {proc ex : List Str} {a : Str}
    (h : ¬ (proc.contains a || ex.contains a) = true) : a ∉ proc ∧ a ∉ ex := by
  rw [Bool.or_eq_true] at h
  push_neg at h
  exact ⟨fun hm => h.1 (contains_true_iff.mpr hm),
    fun hm => h.2 (contains_true_iff.mpr hm)⟩

theorem find_partner_props {tol : ℤ} {tx partner : B4Transaction}
    {cands : List B4Transaction} {proc ex : List Str}
    (h : find_partner tol tx cands proc ex = some partner) :
    partner ∈ cands ∧ partner.id ∉ proc ∧ partner.id ∉ ex ∧
      is_match tol tx partner = true := by
  refine ⟨List.mem_of_find?_eq_some h, ?_, ?_, ?_⟩
  all_goals
    have hp := List.find?_some h
    simp only [Bool.and_eq_true, Bool.not_eq_true'] at hp
  exacts [contains_false_iff.mp hp.1.1, contains_false_iff.mp hp.1.2, hp.2]

theorem fm_aux_nil (tol : ℤ) (ex : List Str) (proc : List Str) :
    find_matches_aux tol ex [] proc = ([], []) := rfl

theorem fm_aux_cons_skip (tol : ℤ) (ex : List Str) (tx1 : B4Transaction)
    (rest : List B4Transaction) (proc : List Str)
    (h : (proc.contains tx1.id || ex.contains tx1.id) = true) :
    find_matches_aux tol ex (tx1 :: rest) proc =
      find_matches_aux tol ex rest proc := by
  simp only [find_matches_aux]
  rw [if_pos h]

theorem fm_aux_cons_pair (tol : ℤ) (ex : List Str) (tx1 partner : B4Transaction)
    (rest : List B4Transaction) (proc : List Str)
    (h : ¬ (proc.contains tx1.id || ex.contains tx1.id) = true)
    (hp : find_partner tol tx1 rest proc ex = some partner) :
    find_matches_aux tol ex (tx1 :: rest) proc =
      ((⟨tx1, partner⟩ : TransferPair) ::
          (find_matches_aux tol ex rest (proc ++ [tx1.id, partner.id])).1,
        (find_matches_aux tol ex rest (proc ++ [tx1.id, partner.id])).2) := by
  simp only [find_matches_aux]
  rw [if_neg h, hp]

theorem fm_aux_cons_unm (tol : ℤ) (ex : List Str) (tx1 : B4Transaction)
    (rest : List B4Transaction) (proc : List Str)
    (h : ¬ (proc.contains tx1.id || ex.contains tx1.id) = true)
    (hp : find_partner tol tx1 rest proc ex = none) :
    find_matches_aux tol ex (tx1 :: rest) proc =
      ((find_matches_aux tol ex rest (proc ++ [tx1.id])).1,
        tx1 :: (find_matches_aux tol ex rest (proc ++ [tx1.id])).2) := by
  simp only [find_matches_aux]
  rw [if_neg h, hp]

/-- Every pair returned by the matcher consists of two input records,
the left member strictly preceding the right member in input order. -/
theorem fm_aux_pairs_sublist (tol : ℤ) (ex : List Str) :
    ∀ (ts : List B4Transaction) (proc : List Str),
      ∀ p ∈ (find_matches_aux tol ex ts proc).1,
        List.Sublist [p.source_tx, p.dest_tx] ts := by
  intro ts
  induction ts with
  | nil => intro proc p hp; simp [fm_aux_nil] at hp
  | cons tx1 rest ih =>
    intro proc p hp
    by_cases hskip : (proc.contains tx1.id || ex.contains tx1.id) = true
    · rw [fm_aux_cons_skip tol ex tx1 rest proc hskip] at hp
      exact (ih proc p hp).cons tx1
    · cases hfp : find_partner tol tx1 rest proc ex with
      | some partner =>
        rw [fm_aux_cons_pair tol ex tx1 partner rest proc hskip hfp] at hp
        rcases List.mem_cons.mp hp with heq | hmem
        · subst heq
          exact (List.singleton_sublist.mpr (find_partner_props hfp).1).cons₂ tx1
        · exact (ih _ p hmem).cons tx1
      | none =>
        rw [fm_aux_cons_unm tol ex tx1 rest proc hskip hfp] at hp
        exact (ih _ p hp).cons tx1

/-- Every unmatched record returned by the matcher is an input record. -/
theorem fm_aux_unm_mem (tol : ℤ) (ex : List Str) :
    ∀ (ts : List B4Transaction) (proc : List Str),
      ∀ u ∈ (find_matches_aux tol ex ts proc).2, u ∈ ts := by
  intro ts
  induction ts with
  | nil => intro proc u hu; simp [fm_aux_nil] at hu
  | cons tx1 rest ih =>
    intro proc u hu
    by_cases hskip : (proc.contains tx1.id || ex.contains tx1.id) = true
    · rw [fm_aux_cons_skip tol ex tx1 rest proc hskip] at hu
      exact List.mem_cons_of_mem tx1 (ih proc u hu)
    · cases hfp : find_partner tol tx1 rest proc ex with
      | some partner =>
        rw [fm_aux_cons_pair tol ex tx1 partner rest proc hskip hfp] at hu
        exact List.mem_cons_of_mem tx1 (ih _ u hu)
      | none =>
        rw [fm_aux_cons_unm tol ex tx1 rest proc hskip hfp] at hu
        rcases List.mem_cons.mp hu with heq | hmem
        · exact heq ▸ List.mem_cons_self tx1 rest
        · exact List.mem_cons_of_mem tx1 (ih _ u hmem)

/-- Records already in `existing_ids` are never used as either side of a
returned pair. -/
theorem fm_aux_pairs_not_existing (tol : ℤ) (ex : List Str) :
    ∀ (ts : List B4Transaction) (proc : List Str),
      ∀ p ∈ (find_matches_aux tol ex ts proc).1,
        p.source_tx.id ∉ ex ∧ p.dest_tx.id ∉ ex := by
  intro ts
  induction ts with
  | nil => intro proc p hp; simp [fm_aux_nil] at hp
  | cons tx1 rest ih =>
    intro proc p hp
    by_cases hskip : (proc.contains tx1.id || ex.contains tx1.id) = true
    · rw [fm_aux_cons_skip tol ex tx1 rest proc hskip] at hp
      exact ih proc p hp
    · cases hfp : find_partner tol tx1 rest proc ex with
      | some partner =>
        rw [fm_aux_cons_pair tol ex tx1 partner rest proc hskip hfp] at hp
        rcases List.mem_cons.mp hp with heq | hmem
        · subst heq
          exact ⟨(not_skip_parts hskip).2, (find_partner_props hfp).2.2.1⟩
        · exact ih _ p hmem
      | none =>
        rw [fm_aux_cons_unm tol ex tx1 rest proc hskip hfp] at hp
        exact ih _ p hp

/-- Records already in `existing_ids` never land in the unmatched list. -/
theorem fm_aux_unm_not_existing (tol : ℤ) (ex : List Str) :
    ∀ (ts : List B4Transaction) (proc : List Str),
      ∀ u ∈ (find_matches_aux tol ex ts proc).2, u.id ∉ ex := by
  intro ts
  induction ts with
  | nil => intro proc u hu; simp [fm_aux_nil] at hu
  | cons tx1 rest ih =>
    intro proc u hu
    by_cases hskip : (proc.contains tx1.id || ex.contains tx1.id) = true
    · rw [fm_aux_cons_skip tol ex tx1 rest proc hskip] at hu
      exact ih proc u hu
    · cases hfp : find_partner tol tx1 rest proc ex with
      | some partner =>
        rw [fm_aux_cons_pair tol ex tx1 partner rest proc hskip hfp] at hu
        exact ih _ u hu
      | none =>
        rw [fm_aux_cons_unm tol ex tx1 rest proc hskip hfp] at hu
        rcases List.mem_cons.mp hu with heq | hmem
        · exact heq ▸ (not_skip_parts hskip).2
        · exact ih _ u hmem

/-- Ids that occur in the pairs returned by the matcher. -/
def pairIds (ps : List TransferPair) : List Str :=
  ps.flatMap fun p => [p.source_tx.id, p.dest_tx.id]

theorem pairIds_cons (p : TransferPair) (ps : List TransferPair) :
    pairIds (p :: ps) = p.source_tx.id :: p.dest_tx.id :: pairIds ps := by
  simp [pairIds]

/-- Coverage: every input record's id is accounted for — it was already
processed, already imported, or it shows up in the output pairs or the
unmatched list. -/
theorem fm_aux_cover (tol : ℤ) (ex : List Str) :
    ∀ (ts : List B4Transaction) (proc : List Str),
      ∀ t ∈ ts, t.id ∈ proc ∨ t.id ∈ ex ∨
        t.id ∈ pairIds (find_matches_aux tol ex ts proc).1 ∨
        t.id ∈ (find_matches_aux tol ex ts proc).2.map (·.id) := by
  intro ts
  induction ts with
  | nil => intro proc t ht; simp at ht
  | cons tx1 rest ih =>
    intro proc t ht
    by_cases hskip : (proc.contains tx1.id || ex.contains tx1.id) = true
    · rw [fm_aux_cons_skip tol ex tx1 rest proc hskip]
      rcases List.mem_cons.mp ht with heq | hmem
      · subst heq
        rcases Bool.or_eq_true_iff.mp hskip with hc | hc
        · exact Or.inl (contains_true_iff.mp hc)
        · exact Or.inr (Or.inl (contains_true_iff.mp hc))
      · exact ih proc t hmem
    · cases hfp : find_partner tol tx1 rest proc ex with
      | some partner =>
        rw [fm_aux_cons_pair tol ex tx1 partner rest proc hskip hfp]
        rcases List.mem_cons.mp ht with heq | hmem
        · subst heq
          refine Or.inr (Or.inr (Or.inl ?_))
          rw [pairIds_cons]
          exact List.mem_cons_self _ _
        · rcases ih (proc ++ [tx1.id, partner.id]) t hmem with hc | hc | hc | hc
          · rcases List.mem_append.mp hc with hc' | hc'
            · exact Or.inl hc'
            · refine Or.inr (Or.inr (Or.inl ?_))
              rw [pairIds_cons]
              rcases List.mem_cons.mp hc' with he | he
              · exact he ▸ List.mem_cons_self _ _
              · simp only [List.mem_singleton] at he
                exact he ▸ List.mem_cons_of_mem _ (List.mem_cons_self _ _)
          · exact Or.inr (Or.inl hc)
          · refine Or.inr (Or.inr (Or.inl ?_))
            rw [pairIds_cons]
            exact List.mem_cons_of_mem _ (List.mem_cons_of_mem _ hc)
          · exact Or.inr (Or.inr (Or.inr hc))
      | none =>
        rw [fm_aux_cons_unm tol ex tx1 rest proc hskip hfp]
        rcases List.mem_cons.mp ht with heq | hmem
        · subst heq
          refine Or.inr (Or.inr (Or.inr ?_))
          simp
        · rcases ih (proc ++ [tx1.id]) t hmem with hc | hc | hc | hc
          · rcases List.mem_append.mp hc with hc' | hc'
            · exact Or.inl hc'
            · simp only [List.mem_singleton] at hc'
              refine Or.inr (Or.inr (Or.inr ?_))
              simp [hc']
          · exact Or.inr (Or.inl hc)
          · exact Or.inr (Or.inr (Or.inl hc))
          · refine Or.inr (Or.inr (Or.inr ?_))
            simp only [List.map_cons, List.mem_cons]
            exact Or.inr (by simpa using hc)

/-- The records that appear in a list of pairs, in order. -/
def pairMembers (ps : List TransferPair) : List B4Transaction :=
  ps.flatMap fun p => [p.source_tx, p.dest_tx]

theorem pairMembers_cons (p : TransferPair) (ps : List TransferPair) :
    pairMembers (p :: ps) = p.source_tx :: p.dest_tx :: pairMembers ps := by
  simp [pairMembers]

/-- Removing one record by id from a list with pairwise-distinct ids is
the same as `List.erase`. -/
theorem filter_ne_id_eq_erase (pred : B4Transaction → Bool) :
    ∀ (l : List B4Transaction) (p : B4Transaction),
      (l.map (·.id)).Nodup → p ∈ l → pred p = true →
      l.filter (fun t => pred t && !(t.id == p.id)) = (l.filter pred).erase p := by
  intro l
  induction l with
  | nil => intro p _ hp; simp at hp
  | cons a l ih =>
    intro p hnd hp hpred
    simp only [List.map_cons, List.nodup_cons] at hnd
    by_cases hap : a = p
    · subst hap
      rw [List.filter_cons, List.filter_cons, if_neg (by simp), if_pos hpred,
          List.erase_cons_head]
      refine List.filter_congr ?_
      intro t ht
      have : (t.id == a.id) = false := by
        refine beq_false_of_ne (fun he => hnd.1 ?_)
        exact he ▸ List.mem_map.mpr ⟨t, ht, rfl⟩
      rw [this]
      simp
    · have hpl : p ∈ l := (List.mem_cons.mp hp).resolve_left fun h => hap h.symm
      have haid : (a == p) = false := beq_false_of_ne hap
      have haid' : (a.id == p.id) = false := by
        refine beq_false_of_ne (fun he => hnd.1 ?_)
        exact he ▸ List.mem_map.mpr ⟨p, hpl, rfl⟩
      rw [List.filter_cons, List.filter_cons]
      by_cases hpa : pred a = true
      · rw [if_pos (by rw [hpa, haid']; rfl), if_pos hpa,
            List.erase_cons_tail (by simp [haid]), ih p hnd.2 hpl hpred]
      · rw [if_neg (fun hq => hpa (by
              simp only [Bool.and_eq_true] at hq
              exact hq.1)),
            if_neg hpa, ih p hnd.2 hpl hpred]

/-- Partition: on input with pairwise-distinct ids, the records of the
returned pairs together with the unmatched records are a permutation of
the input records that are neither processed nor already imported. -/
theorem fm_aux_perm (tol : ℤ) (ex : List Str) :
    ∀ (ts : List B4Transaction) (proc : List Str),
      (ts.map (·.id)).Nodup →
      List.Perm
        (pairMembers (find_matches_aux tol ex ts proc).1 ++
          (find_matches_aux tol ex ts proc).2)
        (ts.filter fun t => !proc.contains t.id && !ex.contains t.id) := by
  intro ts
  induction ts with
  | nil => intro proc _; simp [fm_aux_nil, pairMembers]
  | cons tx1 rest ih =>
    intro proc hnd
    simp only [List.map_cons, List.nodup_cons] at hnd
    have hid1 : ∀ t ∈ rest, t.id ≠ tx1.id := by
      intro t ht he
      exact hnd.1 (he ▸ List.mem_map.mpr ⟨t, ht, rfl⟩)
    by_cases hskip : (proc.contains tx1.id || ex.contains tx1.id) = true
    · have hneg : ¬ (!proc.contains tx1.id && !ex.contains tx1.id) = true := by
        intro hcc
        simp only [Bool.and_eq_true, Bool.not_eq_true'] at hcc
        rw [Bool.or_eq_true] at hskip
        rcases hskip with h | h <;> simp_all
      rw [fm_aux_cons_skip tol ex tx1 rest proc hskip, List.filter_cons,
          if_neg hneg]
      exact ih proc hnd.2
    · have hpred1 : (!proc.contains tx1.id && !ex.contains tx1.id) = true := by
        rw [Bool.or_eq_true] at hskip
        push_neg at hskip
        simp only [Bool.and_eq_true, Bool.not_eq_true']
        exact ⟨Bool.eq_false_iff.mpr hskip.1, Bool.eq_false_iff.mpr hskip.2⟩
      cases hfp : find_partner tol tx1 rest proc ex with
      | some partner =>
        obtain ⟨hpmem, hpproc, hpex, _⟩ := find_partner_props hfp
        have hpredp : (!proc.contains partner.id && !ex.contains partner.id) = true := by
          simp only [Bool.and_eq_true, Bool.not_eq_true']
          exact ⟨contains_false_iff.mpr hpproc, contains_false_iff.mpr hpex⟩
        have hstep := ih (proc ++ [tx1.id, partner.id]) hnd.2
        have hfilter : (rest.filter fun t =>
            !(proc ++ [tx1.id, partner.id]).contains t.id && !ex.contains t.id) =
            ((rest.filter fun t => !proc.contains t.id && !ex.contains t.id).erase
              partner) := by
          rw [← filter_ne_id_eq_erase _ rest partner hnd.2 hpmem hpredp]
          refine List.filter_congr ?_
          intro t ht
          apply Bool.eq_iff_iff.mpr
          simp only [Bool.and_eq_true, Bool.not_eq_true', contains_false_iff,
            List.mem_append, List.mem_cons, List.not_mem_nil, or_false, not_or,
            beq_eq_false_iff_ne]
          constructor
          · rintro ⟨⟨h1, _, h3⟩, h4⟩
            exact ⟨⟨h1, h4⟩, h3⟩
          · rintro ⟨⟨h1, h4⟩, h3⟩
            exact ⟨⟨h1, hid1 t ht, h3⟩, h4⟩
        rw [hfilter] at hstep
        have hmemf : partner ∈
            rest.filter fun t => !proc.contains t.id && !ex.contains t.id :=
          List.mem_filter.mpr ⟨hpmem, hpredp⟩
        rw [fm_aux_cons_pair tol ex tx1 partner rest proc hskip hfp,
            pairMembers_cons, List.filter_cons, if_pos hpred1]
        simp only [List.cons_append]
        exact ((hstep.cons partner).cons tx1).trans
          (((List.perm_cons_erase hmemf).symm).cons tx1)
      | none =>
        have hstep := ih (proc ++ [tx1.id]) hnd.2
        have hfilter : (rest.filter fun t =>
            !(proc ++ [tx1.id]).contains t.id && !ex.contains t.id) =
            rest.filter fun t => !proc.contains t.id && !ex.contains t.id := by
          refine List.filter_congr ?_
          intro t ht
          apply Bool.eq_iff_iff.mpr
          simp only [Bool.and_eq_true, Bool.not_eq_true', contains_false_iff,
            List.mem_append, List.mem_cons, List.not_mem_nil, or_false, not_or]
          constructor
          · rintro ⟨⟨h1, _⟩, h4⟩
            exact ⟨h1, h4⟩
          · rintro ⟨h1, h4⟩
            exact ⟨⟨h1, hid1 t ht⟩, h4⟩
        rw [hfilter] at hstep
        rw [fm_aux_cons_unm tol ex tx1 rest proc hskip hfp, List.filter_cons,
            if_pos hpred1]
        exact List.perm_middle.trans (hstep.cons tx1)

/-! ### Category service (`baezi/services/category_service.py`)

`CategoryService.ensure_category_hierarchy` is modelled as a pure function
of the in-memory category map (an association list, newest entry first,
matching dict-overwrite lookup semantics) and a deterministic API oracle
`api : CatPayload → Option Str`: `some id` models a response with
`success` and the created id, `none` models both an unsuccessful response
and a raised exception (the code returns the same values in either case).
The function also returns the list of `create_category` calls it made. -/

/-- Payload of a `create_category` call. -/
structure CatPayload where
  name : Str
  type : ℤ
  parentId : Str
  icon : Str
  color : Str
deriving DecidableEq

/-- `cat_type = 1 if trans_type == 2 else 2` (1 = income, 2 = expense). -/
def cat_type_of (trans_type : ℤ) : ℤ := if trans_type = 2 then 1 else 2

/-- Python `str.strip()`: removes leading and trailing whitespace. -/
def pystrip (s : Str) : Str :=
  ((s.dropWhile Char.isWhitespace).reverse.dropWhile Char.isWhitespace).reverse

/-- `parts = [p.strip() for p in full_path.split(":")]`. -/
def partsOf (full_path : Str) : List Str :=
  (pysplit ':' [] full_path).map pystrip

/-- `main_name = parts[0]`. -/
def main_name_of (full_path : Str) : Str := (partsOf full_path).headD []

/-- `sub_name = parts[1]`. -/
def sub_name_of (full_path : Str) : Str := (partsOf full_path).getD 1 []

/-- `main_key = f"{cat_type}_{main_name}"`. -/
def main_key_of (trans_type : ℤ) (full_path : Str) : Str :=
  (toString (cat_type_of trans_type)).data ++ '_' :: main_name_of full_path

/-- `sub_key = f"{cat_type}_{main_name}:{sub_name}"`. -/
def sub_key_of (trans_type : ℤ) (full_path : Str) : Str :=
  (toString (cat_type_of trans_type)).data ++ '_' :: main_name_of full_path ++
    ':' :: sub_name_of full_path

/-- Payload used to create a missing top-level category. -/
def main_payload_of (trans_type : ℤ) (full_path : Str) : CatPayload :=
  ⟨main_name_of full_path, cat_type_of trans_type, "0".data, "1".data,
    "8e8e93".data⟩

/-- Payload used to create a missing sub-category under `parent_id`. -/
def sub_payload_of (trans_type : ℤ) (full_path : Str) (parent_id : Str) :
    CatPayload :=
  ⟨sub_name_of full_path, cat_type_of trans_type, parent_id, "1".data,
    "8e8e93".data⟩

/-- Sub-category half of `ensure_category_hierarchy` (lines 177–207):
look up the parent id, then create the sub-category if the path has a
second segment and it is missing; a failed creation falls back to the
parent id. -/
def ensure_sub (api : CatPayload → Option Str) (cmap : List (Str × Str))
    (full_path : Str) (trans_type : ℤ) (stats : Nat) (calls : List CatPayload) :
    Str × List (Str × Str) × Nat × List CatPayload :=
  let parent_id := (cmap.lookup (main_key_of trans_type full_path)).getD "0".data
  if 1 < (partsOf full_path).length then
    match cmap.lookup (sub_key_of trans_type full_path) with
    | some sid => (sid, cmap, stats, calls)
    | none =>
      match api (sub_payload_of trans_type full_path parent_id) with
      | some sid =>
        (sid, (sub_key_of trans_type full_path, sid) :: cmap, stats + 1,
          calls ++ [sub_payload_of trans_type full_path parent_id])
      | none =>
        (parent_id, cmap, stats,
          calls ++ [sub_payload_of trans_type full_path parent_id])
  else (parent_id, cmap, stats, calls)

/-- `CategoryService.ensure_category_hierarchy` (lines 136–207), returning
`(category id, updated map, updated new-categories counter, creation
calls made)`. -/
def ensure_category_hierarchy (api : CatPayload → Option Str)
    (cmap : List (Str × Str)) (full_path : Str) (trans_type : ℤ) (stats : Nat) :
    Str × List (Str × Str) × Nat × List CatPayload :=
  if full_path = [] ∨ full_path = "Umbuchung".data then ("0".data, cmap, stats, [])
  else
    match cmap.lookup (main_key_of trans_type full_path) with
    | some _ => ensure_sub api cmap full_path trans_type stats []
    | none =>
      match api (main_payload_of trans_type full_path) with
      | some newId =>
        ensure_sub api ((main_key_of trans_type full_path, newId) :: cmap)
          full_path trans_type (stats + 1) [main_payload_of trans_type full_path]
      | none => ("0".data, cmap, stats, [main_payload_of trans_type full_path])

/-! ### Transaction payloads (`_create_transaction_payload`) -/

/-- Python 3 `round` on the exact value: round half to even. -/
def pyround (q : ℚ) : ℤ :=
  if q - ⌊q⌋ < 1 / 2 then ⌊q⌋
  else if 1 / 2 < q - ⌊q⌋ then ⌊q⌋ + 1
  else if ⌊q⌋ % 2 = 0 then ⌊q⌋ else ⌊q⌋ + 1

/-- Payload of a `create_transaction` call.  The `time` field keeps the
booking date in day units (the code sends `int(booking_date.timestamp())`,
an injective function of the date); the destination fields are present
exactly for transfers. -/
structure TxPayload where
  type : ℤ
  time : ℤ
  utcOffset : ℤ
  categoryId : Str
  comment : Str
  sourceAccountId : Str
  sourceAmount : ℤ
  destinationAccountId : Option Str
  destinationAmount : Option ℤ
deriving DecidableEq

/-- `TransactionImportService._create_transaction_payload` (lines
326–389): minor-unit amount `int(round(abs(float(amount)) * 100))`,
comment `f"{description[:200]} [B4ID:{b4_id}]"`, transfer category
override, and destination fields only for transfers. -/
def create_transaction_payload (transfer_category_id : Str) (utc_offset : ℤ)
    (acc_id : Str) (amount : ℚ) (booking_date : ℤ) (description : Str)
    (category_id : Str) (transaction_type : TransactionType) (b4_id : Str)
    (partner_acc_id : Str) : TxPayload :=
  let amt_cents := pyround (|amount| * 100)
  let final_comment := mkComment description b4_id
  let category_id :=
    if transaction_type = .TRANSFER ∧ transfer_category_id ≠ "0".data then
      transfer_category_id
    else category_id
  if transaction_type = .TRANSFER then
    { type := transaction_type.value, time := booking_date,
      utcOffset := utc_offset, categoryId := category_id,
      comment := final_comment, sourceAccountId := acc_id,
      sourceAmount := amt_cents, destinationAccountId := some partner_acc_id,
      destinationAmount := some amt_cents }
  else
    { type := transaction_type.value, time := booking_date,
      utcOffset := utc_offset, categoryId := category_id,
      comment := final_comment, sourceAccountId := acc_id,
      sourceAmount := amt_cents, destinationAccountId := none,
      destinationAmount := none }

/-! ### Run orchestration (`TransactionImportService.run_import`)

The run model keeps exactly the state the reconciliation logic depends
on: the target ledger as the list of transaction comments, the
`existing_ids` set (as a list, membership is what matters), the collected
transfer batch and the statistics counters.  `create_transaction` is
modelled as always succeeding — the idempotence claims concern runs whose
API calls succeed; a failed creation in the code adds neither a ledger
comment nor an id, leaving the record to be retried, which is outside
these claims. -/

/-- Run state: ledger comments, existing ids, collected transfer batch and
the `ImportStats` counters the claims mention. -/
structure RunState where
  ledger : List Str
  existing : List Str
  transfers : List B4Transaction
  new_transactions : Nat
  new_transfers : Nat
  skipped : Nat
  errors : Nat
deriving DecidableEq

/-- `_load_existing_ids`: parse every ledger comment and collect all ids
(the Python set is modelled as a list; membership is what matters). -/
def load_existing_ids (ledger : List Str) : List Str :=
  ledger.flatMap parseCommentIds

/-- `_import_single_transaction` on API success (lines 199–201): create
the transaction, add the id to `existing_ids`, count it. -/
def import_single_transaction (tx : B4Transaction) (st : RunState) : RunState :=
  { st with
    ledger := st.ledger ++ [mkComment tx.description tx.id],
    existing := st.existing ++ [tx.id],
    new_transactions := st.new_transactions + 1 }

/-- `_import_transfer_pair` on API success (lines 251–266): create the
transfer with description `f"Transfer: {pair.sender.description[:100]}"`
and the combined id, add both ids to `existing_ids`, count it. -/
def import_transfer_pair (pair : TransferPair) (st : RunState) : RunState :=
  { st with
    ledger := st.ledger ++
      [mkComment ("Transfer: ".data ++ pair.sender.description.take 100)
        pair.combined_id],
    existing := st.existing ++ [pair.source_tx.id, pair.dest_tx.id],
    new_transfers := st.new_transfers + 1 }

/-- `_import_unmatched_transfer` on API success (lines 302–316): create
the transaction with description `f"[Extern] {tx.description}"` and count
it; the id is NOT added to `existing_ids` (faithful to the code). -/
def import_unmatched_transfer (tx : B4Transaction) (st : RunState) : RunState :=
  { st with
    ledger := st.ledger ++
      [mkComment ("[Extern] ".data ++ tx.description) tx.id],
    new_transactions := st.new_transactions + 1 }

/-- Per-record body of `_import_transactions` (lines 132–162): skip when
the raw `BookgSts` value is not exactly `"BOOK"` (note: `tx_data.get`
without default, so a missing field is also skipped), count parse
failures, apply the date filter, skip already-imported ids, collect
transfers, import the rest. -/
def process_record (min_booking_date : ℤ) (b4_acc_id : Str) (st : RunState)
    (data : RawRec) : RunState :=
  if data.BookgSts ≠ some "BOOK".data then st
  else
    match B4Transaction.from_json data b4_acc_id with
    | none => { st with errors := st.errors + 1 }
    | some tx =>
      if tx.booking_date < min_booking_date then st
      else if st.existing.contains tx.id then { st with skipped := st.skipped + 1 }
      else if tx.is_transfer then { st with transfers := st.transfers ++ [tx] }
      else import_single_transaction tx st

/-- Per-file body of `_import_transactions` (lines 110–131): skip files
whose stem is not a known account. -/
def process_file (accounts : List Str) (min_booking_date : ℤ) (st : RunState)
    (file : Str × List RawRec) : RunState :=
  if accounts.contains file.1 then
    file.2.foldl (process_record min_booking_date file.1) st
  else st

/-- `run_import` (lines 43–69): load existing ids, direct-import pass over
all files, then transfer pairing — matched pairs first, unmatched
afterwards. -/
def run_import (tolerance_days min_booking_date : ℤ) (accounts : List Str)
    (files : List (Str × List RawRec)) (ledger₀ : List Str) : RunState :=
  let st₁ : RunState := ⟨ledger₀, load_existing_ids ledger₀, [], 0, 0, 0, 0⟩
  let st₂ := files.foldl (process_file accounts min_booking_date) st₁
  let fm := find_matches tolerance_days st₂.transfers st₂.existing
  let st₃ := fm.1.foldl (fun s p => import_transfer_pair p s) st₂
  fm.2.foldl (fun s t => import_unmatched_transfer t s) st₃

/-! ### Claim C2: transfer match predicate -/

/-- C2: two records are paired by `find_matches` exactly under the four
`_is_match` conditions — equal amounts, different account ids, opposite
directions, booking dates at most `tolerance_days` whole days apart
(inclusive).  For two synthetic records meeting all four conditions the
result is exactly one `TransferPair`; if the date gap exceeds the
tolerance, both records land in the unmatched list. -/
theorem C2_transfer_match_predicate (tol : ℤ) :
    (∀ t1 t2 : B4Transaction,
      is_match tol t1 t2 = true ↔
        (t1.amount = t2.amount ∧ t1.account_id ≠ t2.account_id ∧
          t1.direction ≠ t2.direction ∧
          |t1.booking_date - t2.booking_date| ≤ tol)) ∧
    (∀ r1 r2 : B4Transaction,
      r1.amount = r2.amount → r1.account_id ≠ r2.account_id →
      r1.direction ≠ r2.direction → |r1.booking_date - r2.booking_date| ≤ tol →
      find_matches tol [r1, r2] [] = ([⟨r1, r2⟩], [])) ∧
    (∀ r1 r2 : B4Transaction, r1.id ≠ r2.id →
      tol < |r1.booking_date - r2.booking_date| →
      find_matches tol [r1, r2] [] = ([], [r1, r2])) := by
  refine ⟨fun t1 t2 => by simp [is_match], ?_, ?_⟩
  · intro r1 r2 h1 h2 h3 h4
    have hm : is_match tol r1 r2 = true := by
      simp only [is_match, decide_eq_true_eq]
      exact ⟨h1, h2, h3, h4⟩
    have hfp : find_partner tol r1 [r2] [] [] = some r2 := by
      simp [find_partner, List.find?, hm]
    rw [find_matches, fm_aux_cons_pair tol [] r1 r2 [r2] [] (by simp) hfp,
        fm_aux_cons_skip tol [] r2 [] ([] ++ [r1.id, r2.id]) (by simp),
        fm_aux_nil]
  · intro r1 r2 hne hgt
    have hm : is_match tol r1 r2 = false := by
      simp only [is_match, decide_eq_false_iff_not]
      rintro ⟨_, _, _, hle⟩
      exact absurd hle (not_le.mpr hgt)
    have hfp : find_partner tol r1 [r2] [] [] = none := by
      simp [find_partner, List.find?, hm]
    rw [find_matches, fm_aux_cons_unm tol [] r1 [r2] [] (by simp) hfp,
        fm_aux_cons_unm tol [] r2 [] ([] ++ [r1.id])
          (by simp; exact fun h => hne h.symm) rfl,
        fm_aux_nil]

/-- Transfer leg used in concrete matcher scenarios: debit of 100 on
account `ACC1`, day 0. -/
def wtx1 : B4Transaction :=
  ⟨"1".data, 0, 100, "t1".data, .DEBIT, "Umbuchung".data, .BOOKED, "ACC1".data⟩

/-- Matching credit leg: 100 on account `ACC2`, day 2. -/
def wtx2 : B4Transaction :=
  ⟨"2".data, 2, 100, "t2".data, .CREDIT, "Umbuchung".data, .BOOKED, "ACC2".data⟩

/-- Credit leg too far away in time: 100 on account `ACC3`, day 9. -/
def wtx3 : B4Transaction :=
  ⟨"3".data, 9, 100, "t3".data, .CREDIT, "Umbuchung".data, .BOOKED, "ACC3".data⟩

/-- Later matching credit leg (for the tie-break scenario): 100 on
account `ACC3`, day 1. -/
def wtx4 : B4Transaction :=
  ⟨"4".data, 1, 100, "t4".data, .CREDIT, "Umbuchung".data, .BOOKED, "ACC3".data⟩

theorem C2_transfer_match_predicate_witness :
    find_matches 3 [wtx1, wtx2] [] = ([⟨wtx1, wtx2⟩], []) ∧
    find_matches 3 [wtx1, wtx3] [] = ([], [wtx1, wtx3]) :=
  ⟨(C2_transfer_match_predicate 3).2.1 wtx1 wtx2 (by decide) (by decide)
      (by decide) (by decide),
    (C2_transfer_match_predicate 3).2.2 wtx1 wtx3 (by decide) (by decide)⟩

/-! ### Claim C3: first-match tie-break policy -/

/-- C3: the matcher pairs a left record with the FIRST later candidate
satisfying the predicate (not the nearest-date one): for `[a, b, c]` where
`a` matches both `b` and `c`, the result is exactly the pair `(a, b)` with
`c` unmatched.  Records whose ids are in `existing_ids` are never used as
either side of a pair nor reported unmatched. -/
theorem C3_first_match_policy (tol : ℤ) :
    (∀ (a b c : B4Transaction) (ex : List Str),
      a.id ∉ ex → b.id ∉ ex → c.id ∉ ex →
      a.id ≠ b.id → a.id ≠ c.id → b.id ≠ c.id →
      is_match tol a b = true → is_match tol a c = true →
      find_matches tol [a, b, c] ex = ([⟨a, b⟩], [c])) ∧
    (∀ (ts : List B4Transaction) (ex : List Str),
      (∀ p ∈ (find_matches tol ts ex).1,
        p.source_tx.id ∉ ex ∧ p.dest_tx.id ∉ ex) ∧
      (∀ u ∈ (find_matches tol ts ex).2, u.id ∉ ex)) := by
  constructor
  · intro a b c ex hea heb hec hab hac hbc hmab hmac
    have hfpa : find_partner tol a [b, c] [] ex = some b := by
      simp [find_partner, List.find?, hmab, heb]
    rw [find_matches,
        fm_aux_cons_pair tol ex a b [b, c] [] (by simp [hea]) hfpa,
        fm_aux_cons_skip tol ex b [c] ([] ++ [a.id, b.id]) (by simp),
        fm_aux_cons_unm tol ex c [] ([] ++ [a.id, b.id])
          (by
            simp
            exact ⟨⟨fun h => hac h.symm, fun h => hbc h.symm⟩, hec⟩) rfl,
        fm_aux_nil]
  · intro ts ex
    exact ⟨fun p hp => fm_aux_pairs_not_existing tol ex ts [] p hp,
      fun u hu => fm_aux_unm_not_existing tol ex ts [] u hu⟩

theorem C3_first_match_policy_witness :
    find_matches 3 [wtx1, wtx2, wtx4] [] = ([⟨wtx1, wtx2⟩], [wtx4]) :=
  (C3_first_match_policy 3).1 wtx1 wtx2 wtx4 [] (by decide) (by decide)
    (by decide) (by decide) (by decide) (by decide) (by decide) (by decide)

/-! ### Claim C10: matcher output partition -/

/-- C10: for candidates with pairwise-distinct ids, the records inside the
returned pairs together with the unmatched records are a permutation of
the input records whose ids are not in `existing_ids` (so each such record
appears in exactly one output slot and records with existing ids appear in
neither), and every returned pair is a sublist of the input — both members
come from the input with the left member preceding the right one. -/
theorem C10_matcher_partition (tol : ℤ) (ts : List B4Transaction)
    (ex : List Str) (hnd : (ts.map (·.id)).Nodup) :
    List.Perm
      (pairMembers (find_matches tol ts ex).1 ++ (find_matches tol ts ex).2)
      (ts.filter fun t => !ex.contains t.id) ∧
    (∀ p ∈ (find_matches tol ts ex).1,
      List.Sublist [p.source_tx, p.dest_tx] ts) ∧
    (∀ p ∈ (find_matches tol ts ex).1,
      p.source_tx.id ∉ ex ∧ p.dest_tx.id ∉ ex) ∧
    (∀ u ∈ (find_matches tol ts ex).2, u.id ∉ ex) := by
  refine ⟨?_, fun p hp => fm_aux_pairs_sublist tol ex ts [] p hp,
    fun p hp => fm_aux_pairs_not_existing tol ex ts [] p hp,
    fun u hu => fm_aux_unm_not_existing tol ex ts [] u hu⟩
  have hperm := fm_aux_perm tol ex ts [] hnd
  rwa [List.filter_congr (fun t _ => rfl)] at hperm

theorem C10_matcher_partition_witness :
    (([wtx1, wtx2, wtx3].map (·.id)).Nodup) ∧
    List.Perm
      (pairMembers (find_matches 3 [wtx1, wtx2, wtx3] ["3".data]).1 ++
        (find_matches 3 [wtx1, wtx2, wtx3] ["3".data]).2)
      ([wtx1, wtx2, wtx3].filter fun t => !(["3".data] : List Str).contains t.id) :=
  ⟨by decide,
    (C10_matcher_partition 3 [wtx1, wtx2, wtx3] ["3".data] (by decide)).1⟩

/-! ### Payload helper lemmas -/

theorem create_payload_sourceAmount (tcid : Str) (uo : ℤ) (acc : Str) (amt : ℚ)
    (bd : ℤ) (desc cat : Str) (tt : TransactionType) (b4id pid : Str) :
    (create_transaction_payload tcid uo acc amt bd desc cat tt b4id pid).sourceAmount
      = pyround (|amt| * 100) := by
  simp only [create_transaction_payload]
  split <;> rfl

theorem create_payload_dest_transfer (tcid : Str) (uo : ℤ) (acc : Str) (amt : ℚ)
    (bd : ℤ) (desc cat : Str) (b4id pid : Str) :
    (create_transaction_payload tcid uo acc amt bd desc cat .TRANSFER b4id
        pid).destinationAmount = some (pyround (|amt| * 100)) := by
  simp only [create_transaction_payload]
  rfl

theorem create_payload_comment (tcid : Str) (uo : ℤ) (acc : Str) (amt : ℚ)
    (bd : ℤ) (desc cat : Str) (tt : TransactionType) (b4id pid : Str) :
    (create_transaction_payload tcid uo acc amt bd desc cat tt b4id pid).comment
      = desc.take 200 ++ " [B4ID:".data ++ b4id ++ "]".data := by
  simp only [create_transaction_payload]
  split <;> rfl

/-! ### Claim C4: marker round trip — corrected

The claim as frozen only excludes underscores from the ids and the marker
prefix from the description.  An id containing `]` already breaks the
round trip: the parser cuts at the FIRST `]` after the marker. -/

/-- C4 counterexample: ids `A = "x]"` and `B = "y"` contain no underscore
and the description `"d"` contains no marker prefix, yet the parser
recovers `{"x"}` rather than `{A, B}` from the combined-id comment. -/
theorem C4_marker_roundtrip_counterexample :
    parseCommentIds (mkComment "d".data ("x]".data ++ '_' :: "y".data)) =
      ["x".data] ∧
    "x]".data ∉ parseCommentIds (mkComment "d".data ("x]".data ++ '_' :: "y".data)) ∧
    "y".data ∉ parseCommentIds (mkComment "d".data ("x]".data ++ '_' :: "y".data)) := by
  decide

/-- C4 amended: every created transaction's comment is the description
truncated to 200 characters followed by ` [B4ID:<id>]`; and the
`_load_existing_ids` parser applied to such a comment recovers exactly
`[A]` for a single id and exactly `[A, B]` for the combined id `A_B` —
provided the ids contain no underscore, no `]`, and no occurrence of the
marker prefix, and the description contains no occurrence of the marker
prefix. -/
theorem C4_marker_roundtrip (desc id1 id2 : Str)
    (hdesc : ¬ marker <:+: desc)
    (h1m : ¬ marker <:+: id1) (h1b : ']' ∉ id1) (h1u : '_' ∉ id1)
    (h2m : ¬ marker <:+: id2) (h2b : ']' ∉ id2) (h2u : '_' ∉ id2) :
    (∀ (tcid : Str) (uo : ℤ) (acc : Str) (amt : ℚ) (bd : ℤ) (cat : Str)
      (tt : TransactionType) (pid : Str),
      (create_transaction_payload tcid uo acc amt bd desc cat tt id1 pid).comment
        = desc.take 200 ++ " [B4ID:".data ++ id1 ++ "]".data) ∧
    parseCommentIds (mkComment desc id1) = [id1] ∧
    parseCommentIds (mkComment desc (id1 ++ '_' :: id2)) = [id1, id2] :=
  ⟨fun tcid uo acc amt bd cat tt pid =>
      create_payload_comment tcid uo acc amt bd desc cat tt id1 pid,
    parse_mkComment_single desc id1 hdesc h1m h1b h1u,
    parse_mkComment_pair desc id1 id2 hdesc h1m h1b h1u h2m h2b h2u⟩

theorem C4_marker_roundtrip_witness :
    parseCommentIds (mkComment "d".data "a".data) = ["a".data] ∧
    parseCommentIds (mkComment "d".data ("a".data ++ '_' :: "b".data)) =
      ["a".data, "b".data] :=
  ⟨(C4_marker_roundtrip "d".data "a".data "b".data (by decide) (by decide)
      (by decide) (by decide) (by decide) (by decide) (by decide)).2.1,
    (C4_marker_roundtrip "d".data "a".data "b".data (by decide) (by decide)
      (by decide) (by decide) (by decide) (by decide) (by decide)).2.2⟩

/-! ### Claim C5: existing-id set growth — corrected

`_import_single_transaction` and `_import_transfer_pair` add the imported
ids to `existing_ids` on success, but `_import_unmatched_transfer`
(lines 312–319) does not. -/

/-- Empty run state used in concrete scenarios. -/
def st_empty : RunState := ⟨[], [], [], 0, 0, 0, 0⟩

/-- C5 counterexample: a successful unmatched-transfer import counts a new
transaction but leaves `existing_ids` unchanged — the record's id is not
added, contradicting the claim for the third import path. -/
theorem C5_existing_growth_counterexample :
    (import_unmatched_transfer wtx1 st_empty).new_transactions = 1 ∧
    (import_unmatched_transfer wtx1 st_empty).existing = [] ∧
    wtx1.id ∉ (import_unmatched_transfer wtx1 st_empty).existing := by
  decide

/-- C5 amended: on success the single-transaction path adds the record id
and the transfer-pair path adds both constituent ids to the existing-id
set before the run continues; the unmatched-transfer path leaves the set
unchanged.  Still, no record is imported twice within the transfer phase:
for candidates with pairwise-distinct ids, each record occurs at most once
among the matcher's outputs. -/
theorem C5_existing_growth :
    (∀ (tx : B4Transaction) (st : RunState),
      (import_single_transaction tx st).existing = st.existing ++ [tx.id]) ∧
    (∀ (p : TransferPair) (st : RunState),
      (import_transfer_pair p st).existing =
        st.existing ++ [p.source_tx.id, p.dest_tx.id]) ∧
    (∀ (tx : B4Transaction) (st : RunState),
      (import_unmatched_transfer tx st).existing = st.existing) ∧
    (∀ (tol : ℤ) (ts : List B4Transaction) (ex : List Str),
      (ts.map (·.id)).Nodup → ∀ t : B4Transaction,
        (pairMembers (find_matches tol ts ex).1 ++
          (find_matches tol ts ex).2).count t ≤ 1) := by
  refine ⟨fun tx st => rfl, fun p st => rfl, fun tx st => rfl, ?_⟩
  intro tol ts ex hnd t
  have hperm := fm_aux_perm tol ex ts [] hnd
  show (pairMembers (find_matches_aux tol ex ts []).1 ++
    (find_matches_aux tol ex ts []).2).count t ≤ 1
  rw [hperm.count_eq t]
  calc (ts.filter fun t => !([] : List Str).contains t.id &&
          !ex.contains t.id).count t
      ≤ ts.count t := (List.filter_sublist ts).count_le t
    _ ≤ 1 := List.nodup_iff_count_le_one.mp (hnd.of_map _) t

theorem C5_existing_growth_witness :
    (([wtx1, wtx2, wtx3].map (·.id)).Nodup) ∧
    (pairMembers (find_matches 3 [wtx1, wtx2, wtx3] []).1 ++
      (find_matches 3 [wtx1, wtx2, wtx3] []).2).count wtx1 ≤ 1 :=
  ⟨by decide, C5_existing_growth.2.2.2 3 [wtx1, wtx2, wtx3] [] (by decide) wtx1⟩

/-! ### Claim C6: booking-status default — code bug

`B4Transaction.from_json` defaults a missing `BookgSts` to `"BOOK"`
(booked), but `_import_transactions` line 134 checks the RAW value
`tx_data.get("BookgSts") != "BOOK"`, where `get` without a default returns
`None` for a missing key — so a record without the field is silently
skipped even though the model (and the spec) treat it as booked. -/

/-- A source record carrying every required field but no `BookgSts`. -/
def statusless_rec : RawRec :=
  ⟨some "1".data, some (some 738000), some (some 5), some "d".data,
    some "CRDT".data, none, none⟩

/-- C6: the status-less record parses as BOOKED (per the model's default),
yet the direct-import pass leaves any state unchanged on it — it is
skipped, not processed; with an explicit `"BOOK"` the same record is
imported. -/
theorem C6_booking_status_default :
    ((B4Transaction.from_json statusless_rec "A".data).map B4Transaction.is_booked
      = some true) ∧
    (∀ st : RunState, process_record 0 "A".data st statusless_rec = st) ∧
    ((process_record 0 "A".data st_empty
        { statusless_rec with BookgSts := some "BOOK".data }).new_transactions
      = 1) := by
  refine ⟨by decide, fun st => rfl, by decide⟩

/-! ### Claim C9: amount normalization and wire encoding -/

/-- Any successfully parsed record stores the absolute value of the raw
`Amt` field. -/
theorem from_json_amount {data : RawRec} {acc : Str} {tx : B4Transaction}
    (h : B4Transaction.from_json data acc = some tx) :
    ∃ raw, data.Amt = some (some raw) ∧ tx.amount = |raw| := by
  rcases data with ⟨oid, odt, oamt, orm, ocd, ocat, osts⟩
  cases oid with
  | none => simp [B4Transaction.from_json] at h
  | some i =>
  cases odt with
  | none => simp [B4Transaction.from_json] at h
  | some od =>
  cases oamt with
  | none => simp [B4Transaction.from_json] at h
  | some oa =>
  cases orm with
  | none => simp [B4Transaction.from_json] at h
  | some r =>
  cases ocd with
  | none => simp [B4Transaction.from_json] at h
  | some cd =>
  cases od with
  | none => simp [B4Transaction.from_json] at h
  | some d =>
  cases oa with
  | none => simp [B4Transaction.from_json] at h
  | some amt =>
  cases hdir : parseDirection cd with
  | none => simp [B4Transaction.from_json, hdir] at h
  | some dir =>
  cases hbs : parseBookingStatus (Option.getD osts "BOOK".data) with
  | none => simp [B4Transaction.from_json, hdir, hbs] at h
  | some bs =>
  simp only [B4Transaction.from_json, hdir, hbs, Option.some.injEq] at h
  subst h
  exact ⟨amt, rfl, rfl⟩

/-- C9: every parsed record stores the absolute value of the raw amount
(direction is the sole sign carrier), and every payload transmits the
integer `round(amount * 100)` in minor units; for transfer payloads the
destination amount equals the source amount. -/
theorem C9_amount_normalization :
    (∀ (data : RawRec) (acc : Str) (tx : B4Transaction),
      B4Transaction.from_json data acc = some tx →
      (∃ raw, data.Amt = some (some raw) ∧ tx.amount = |raw|) ∧
      (∀ (tcid : Str) (uo : ℤ) (acc2 : Str) (cat pid : Str),
        (create_transaction_payload tcid uo acc2 tx.amount tx.booking_date
          tx.description cat tx.transaction_type tx.id pid).sourceAmount
          = pyround (tx.amount * 100))) ∧
    (∀ (tcid : Str) (uo : ℤ) (acc : Str) (amt : ℚ) (bd : ℤ) (desc cat : Str)
      (tt : TransactionType) (b4id pid : Str),
      (create_transaction_payload tcid uo acc amt bd desc cat tt b4id pid).sourceAmount
        = pyround (|amt| * 100) ∧
      (tt = .TRANSFER →
        (create_transaction_payload tcid uo acc amt bd desc cat tt b4id
          pid).destinationAmount =
          some ((create_transaction_payload tcid uo acc amt bd desc cat tt b4id
            pid).sourceAmount))) := by
  constructor
  · intro data acc tx h
    obtain ⟨raw, hAmt, hA⟩ := from_json_amount h
    refine ⟨⟨raw, hAmt, hA⟩, ?_⟩
    intro tcid uo acc2 cat pid
    rw [create_payload_sourceAmount, hA, abs_abs]
  · intro tcid uo acc amt bd desc cat tt b4id pid
    refine ⟨create_payload_sourceAmount tcid uo acc amt bd desc cat tt b4id pid, ?_⟩
    rintro rfl
    rw [create_payload_dest_transfer, create_payload_sourceAmount]

/-- A raw record with a negative amount and direction `DBIT`. -/
def c9rec : RawRec :=
  ⟨some "9".data, some (some 10), some (some (-5 : ℚ)), some "d".data,
    some "DBIT".data, none, none⟩

theorem C9_amount_normalization_witness :
    (∃ raw, c9rec.Amt = some (some raw) ∧
      (⟨"9".data, 10, |(-5 : ℚ)|, "d".data, .DEBIT, [], .BOOKED, "A".data⟩ :
        B4Transaction).amount = |raw|) :=
  (C9_amount_normalization.1 c9rec "A".data _ rfl).1

/-! ### Claim C7: graceful degradation of `ensure_category_hierarchy` -/

theorem main_key_ne_sub_key (t : ℤ) (fp : Str) :
    main_key_of t fp ≠ sub_key_of t fp := by
  intro h
  have hl := congrArg List.length h
  simp only [main_key_of, sub_key_of, List.length_append, List.length_cons] at hl
  omega

/-- C7: `ensure_category_hierarchy` degrades gracefully on every input
(it is a total function of its inputs): (1) an empty path or the literal
`"Umbuchung"` returns the sentinel `"0"` immediately, with no remote call
and no state change; (2) when the top-level category is missing and its
creation fails, the result is the sentinel `"0"` (map and counter
unchanged); (3) when the top-level category exists — or was just created —
and the sub-category creation fails, the result is the top-level id. -/
theorem C7_category_graceful_degradation (api : CatPayload → Option Str) :
    (∀ (cmap : List (Str × Str)) (t : ℤ) (s : Nat),
      ensure_category_hierarchy api cmap [] t s = ("0".data, cmap, s, []) ∧
      ensure_category_hierarchy api cmap "Umbuchung".data t s =
        ("0".data, cmap, s, [])) ∧
    (∀ (cmap : List (Str × Str)) (fp : Str) (t : ℤ) (s : Nat),
      fp ≠ [] → fp ≠ "Umbuchung".data →
      cmap.lookup (main_key_of t fp) = none →
      api (main_payload_of t fp) = none →
      ensure_category_hierarchy api cmap fp t s =
        ("0".data, cmap, s, [main_payload_of t fp])) ∧
    (∀ (cmap : List (Str × Str)) (fp : Str) (t : ℤ) (s : Nat) (pid : Str),
      fp ≠ [] → fp ≠ "Umbuchung".data → 1 < (partsOf fp).length →
      cmap.lookup (main_key_of t fp) = some pid →
      cmap.lookup (sub_key_of t fp) = none →
      api (sub_payload_of t fp pid) = none →
      (ensure_category_hierarchy api cmap fp t s).1 = pid) ∧
    (∀ (cmap : List (Str × Str)) (fp : Str) (t : ℤ) (s : Nat) (mid : Str),
      fp ≠ [] → fp ≠ "Umbuchung".data → 1 < (partsOf fp).length →
      cmap.lookup (main_key_of t fp) = none →
      api (main_payload_of t fp) = some mid →
      ((main_key_of t fp, mid) :: cmap).lookup (sub_key_of t fp) = none →
      api (sub_payload_of t fp mid) = none →
      (ensure_category_hierarchy api cmap fp t s).1 = mid) := by
  refine ⟨?_, ?_, ?_, ?_⟩
  · intro cmap t s
    constructor
    · simp [ensure_category_hierarchy]
    · simp [ensure_category_hierarchy]
  · intro cmap fp t s h1 h2 hlk hapi
    have hg : ¬ (fp = [] ∨ fp = "Umbuchung".data) := by
      rintro (h | h)
      exacts [h1 h, h2 h]
    simp only [ensure_category_hierarchy, if_neg hg, hlk, hapi]
  · intro cmap fp t s pid h1 h2 hlen hmain hsub hapi
    have hg : ¬ (fp = [] ∨ fp = "Umbuchung".data) := by
      rintro (h | h)
      exacts [h1 h, h2 h]
    simp only [ensure_category_hierarchy, ensure_sub, if_neg hg, if_pos hlen,
      hmain, hsub, hapi, Option.getD_some]
  · intro cmap fp t s mid h1 h2 hlen hmain hapiM hsub hapiS
    have hg : ¬ (fp = [] ∨ fp = "Umbuchung".data) := by
      rintro (h | h)
      exacts [h1 h, h2 h]
    have hm1 : ((main_key_of t fp, mid) :: cmap).lookup (main_key_of t fp) =
        some mid := by
      simp [List.lookup]
    simp only [ensure_category_hierarchy, ensure_sub, if_neg hg, if_pos hlen,
      hmain, hapiM, hm1, hsub, hapiS, Option.getD_some]

/-- An API oracle whose every call fails. -/
def api_fail : CatPayload → Option Str := fun _ => none

theorem C7_category_graceful_degradation_witness :
    ensure_category_hierarchy api_fail [] "A".data 3 0 =
      ("0".data, [], 0, [main_payload_of 3 "A".data]) ∧
    (ensure_category_hierarchy api_fail
      [(main_key_of 3 "A:B".data, "P".data)] "A:B".data 3 0).1 = "P".data :=
  ⟨(C7_category_graceful_degradation api_fail).2.1 [] "A".data 3 0
      (by decide) (by decide) (by decide) rfl,
    (C7_category_graceful_degradation api_fail).2.2.1
      [(main_key_of 3 "A:B".data, "P".data)] "A:B".data 3 0 "P".data
      (by decide) (by decide) (by decide) (by decide) (by decide) rfl⟩

/-! ### Claim C8: category creation caching — corrected

The claim's "at most one remote category-creation call" fails for a fresh
two-level path: the first invocation creates both the top-level and the
sub-category — two `create_category` calls. -/

/-- An API oracle whose every creation succeeds. -/
def c8_api : CatPayload → Option Str := fun p => some ('i' :: p.name)

/-- First invocation on a fresh two-level path. -/
def c8_first : Str × List (Str × Str) × Nat × List CatPayload :=
  ensure_category_hierarchy c8_api [] "A:B".data 3 0

/-- Second invocation with the state produced by the first. -/
def c8_second : Str × List (Str × Str) × Nat × List CatPayload :=
  ensure_category_hierarchy c8_api c8_first.2.1 "A:B".data 3 c8_first.2.2.1

/-- C8 counterexample: calling `ensure_category_hierarchy` twice with the
same path `"A:B"` and type hint on an empty cache triggers two remote
category-creation calls (both in the first invocation), not at most
one. -/
theorem C8_category_caching_counterexample :
    c8_first.2.2.2.length + c8_second.2.2.2.length = 2 ∧
    ¬ (c8_first.2.2.2.length + c8_second.2.2.2.length ≤ 1) := by
  decide

/-- C8 amended: at most one creation call is made per missing category
level (so at most two per invocation), and whenever every creation call of
the first invocation succeeds, the second invocation with the same
`(path, type hint)` makes NO creation call and returns the same id, map
and counter — it is answered entirely from the in-memory map; each
successful creation stores its id and increments the new-categories
counter exactly once (the counter grows by exactly the number of creation
calls made). -/
theorem C8_category_creation_caching (api : CatPayload → Option Str)
    (cmap : List (Str × Str)) (fp : Str) (t : ℤ) (s : Nat)
    (hok : ∀ pl ∈ (ensure_category_hierarchy api cmap fp t s).2.2.2,
      (api pl).isSome = true) :
    ensure_category_hierarchy api (ensure_category_hierarchy api cmap fp t s).2.1
        fp t (ensure_category_hierarchy api cmap fp t s).2.2.1 =
      ((ensure_category_hierarchy api cmap fp t s).1,
        (ensure_category_hierarchy api cmap fp t s).2.1,
        (ensure_category_hierarchy api cmap fp t s).2.2.1, []) ∧
    (ensure_category_hierarchy api cmap fp t s).2.2.1 =
      s + (ensure_category_hierarchy api cmap fp t s).2.2.2.length ∧
    (ensure_category_hierarchy api cmap fp t s).2.2.2.length ≤ 2 := by
  by_cases hg : fp = [] ∨ fp = "Umbuchung".data
  · have hE : ensure_category_hierarchy api cmap fp t s = ("0".data, cmap, s, []) := by
      simp only [ensure_category_hierarchy, if_pos hg]
    rw [hE]
    refine ⟨?_, by simp, by simp⟩
    simp only [ensure_category_hierarchy, if_pos hg]
  · cases hmain : cmap.lookup (main_key_of t fp) with
    | some pid =>
      by_cases hlen : 1 < (partsOf fp).length
      · cases hsub : cmap.lookup (sub_key_of t fp) with
        | some sid =>
          have hE : ensure_category_hierarchy api cmap fp t s =
              (sid, cmap, s, []) := by
            simp only [ensure_category_hierarchy, ensure_sub, if_neg hg,
              if_pos hlen, hmain, hsub]
          rw [hE]
          exact ⟨hE, by simp, by simp⟩
        | none =>
          cases hapi : api (sub_payload_of t fp pid) with
          | none =>
            exfalso
            have hE : ensure_category_hierarchy api cmap fp t s =
                (pid, cmap, s, [sub_payload_of t fp pid]) := by
              simp only [ensure_category_hierarchy, ensure_sub, if_neg hg,
                if_pos hlen, hmain, hsub, hapi, Option.getD_some,
                List.nil_append]
            have := hok (sub_payload_of t fp pid) (by rw [hE]; simp)
            rw [hapi] at this
            simp at this
          | some sid =>
            have hE : ensure_category_hierarchy api cmap fp t s =
                (sid, (sub_key_of t fp, sid) :: cmap, s + 1,
                  [sub_payload_of t fp pid]) := by
              simp only [ensure_category_hierarchy, ensure_sub, if_neg hg,
                if_pos hlen, hmain, hsub, hapi, Option.getD_some,
                List.nil_append]
            rw [hE]
            have hm2 : ((sub_key_of t fp, sid) :: cmap).lookup
                (main_key_of t fp) = some pid := by
              simp [List.lookup, beq_false_of_ne (main_key_ne_sub_key t fp),
                hmain]
            have hs2 : ((sub_key_of t fp, sid) :: cmap).lookup
                (sub_key_of t fp) = some sid := by
              simp [List.lookup]
            refine ⟨?_, by simp, by simp⟩
            simp only [ensure_category_hierarchy, ensure_sub, if_neg hg,
              if_pos hlen, hm2, hs2]
      · have hE : ensure_category_hierarchy api cmap fp t s =
            (pid, cmap, s, []) := by
          simp only [ensure_category_hierarchy, ensure_sub, if_neg hg,
            if_neg hlen, hmain, Option.getD_some]
        rw [hE]
        exact ⟨hE, by simp, by simp⟩
    | none =>
      cases hapiM : api (main_payload_of t fp) with
      | none =>
        exfalso
        have hE : ensure_category_hierarchy api cmap fp t s =
            ("0".data, cmap, s, [main_payload_of t fp]) := by
          simp only [ensure_category_hierarchy, if_neg hg, hmain, hapiM]
        have := hok (main_payload_of t fp) (by rw [hE]; simp)
        rw [hapiM] at this
        simp at this
      | some mid =>
        have hm1 : ((main_key_of t fp, mid) :: cmap).lookup (main_key_of t fp) =
            some mid := by
          simp [List.lookup]
        by_cases hlen : 1 < (partsOf fp).length
        · cases hsub : ((main_key_of t fp, mid) :: cmap).lookup
              (sub_key_of t fp) with
          | some sid =>
            have hE : ensure_category_hierarchy api cmap fp t s =
                (sid, (main_key_of t fp, mid) :: cmap, s + 1,
                  [main_payload_of t fp]) := by
              simp only [ensure_category_hierarchy, ensure_sub, if_neg hg,
                if_pos hlen, hmain, hapiM, hm1, hsub, Option.getD_some]
            rw [hE]
            refine ⟨?_, by simp, by simp⟩
            simp only [ensure_category_hierarchy, ensure_sub, if_neg hg,
              if_pos hlen, hm1, hsub]
          | none =>
            cases hapiS : api (sub_payload_of t fp mid) with
            | none =>
              exfalso
              have hE : ensure_category_hierarchy api cmap fp t s =
                  (mid, (main_key_of t fp, mid) :: cmap, s + 1,
                    [main_payload_of t fp, sub_payload_of t fp mid]) := by
                simp only [ensure_category_hierarchy, ensure_sub, if_neg hg,
                  if_pos hlen, hmain, hapiM, hm1, hsub, hapiS,
                  Option.getD_some]
                rfl
              have := hok (sub_payload_of t fp mid) (by rw [hE]; simp)
              rw [hapiS] at this
              simp at this
            | some sid =>
              have hE : ensure_category_hierarchy api cmap fp t s =
                  (sid, (sub_key_of t fp, sid) :: (main_key_of t fp, mid) :: cmap,
                    s + 2, [main_payload_of t fp, sub_payload_of t fp mid]) := by
                simp only [ensure_category_hierarchy, ensure_sub, if_neg hg,
                  if_pos hlen, hmain, hapiM, hm1, hsub, hapiS,
                  Option.getD_some]
                rfl
              rw [hE]
              have hm2 : ((sub_key_of t fp, sid) :: (main_key_of t fp, mid) ::
                  cmap).lookup (main_key_of t fp) = some mid := by
                simp [List.lookup, beq_false_of_ne (main_key_ne_sub_key t fp)]
              have hs2 : ((sub_key_of t fp, sid) :: (main_key_of t fp, mid) ::
                  cmap).lookup (sub_key_of t fp) = some sid := by
                simp [List.lookup]
              refine ⟨?_, by simp, by simp⟩
              simp only [ensure_category_hierarchy, ensure_sub, if_neg hg,
                if_pos hlen, hm2, hs2]
        · have hE : ensure_category_hierarchy api cmap fp t s =
              (mid, (main_key_of t fp, mid) :: cmap, s + 1,
                [main_payload_of t fp]) := by
            simp only [ensure_category_hierarchy, ensure_sub, if_neg hg,
              if_neg hlen, hmain, hapiM, hm1, Option.getD_some]
          rw [hE]
          refine ⟨?_, by simp, by simp⟩
          simp only [ensure_category_hierarchy, ensure_sub, if_neg hg,
            if_neg hlen, hm1, Option.getD_some]

theorem C8_category_creation_caching_witness :
    (∀ pl ∈ (ensure_category_hierarchy c8_api [] "A:B".data 3 0).2.2.2,
      (c8_api pl).isSome = true) ∧
    ensure_category_hierarchy c8_api
        (ensure_category_hierarchy c8_api [] "A:B".data 3 0).2.1 "A:B".data 3
        (ensure_category_hierarchy c8_api [] "A:B".data 3 0).2.2.1 =
      ((ensure_category_hierarchy c8_api [] "A:B".data 3 0).1,
        (ensure_category_hierarchy c8_api [] "A:B".data 3 0).2.1,
        (ensure_category_hierarchy c8_api [] "A:B".data 3 0).2.2.1, []) :=
  ⟨by decide,
    (C8_category_creation_caching c8_api [] "A:B".data 3 0 (by decide)).1⟩

/-! ### Claim C1: idempotence of the full import

The reconciliation marker only round-trips for ids without `_`, `]` or an
embedded marker and for descriptions without the marker prefix
(cf. claim C4), so idempotence of the full run holds under exactly that
hygiene condition on the parsed records — and fails without it. -/

/-- Id hygiene: no underscore, no `]`, no embedded marker prefix. -/
def good_id (id : Str) : Bool :=
  !id.contains '_' && !id.contains ']' && !(decide (marker <:+: id))

/-- Record hygiene: a well-formed id and a marker-free description. -/
def good_tx (tx : B4Transaction) : Bool :=
  good_id tx.id && !(decide (marker <:+: tx.description))

theorem good_tx_spec {tx : B4Transaction} (h : good_tx tx = true) :
    '_' ∉ tx.id ∧ ']' ∉ tx.id ∧ ¬ marker <:+: tx.id ∧
      ¬ marker <:+: tx.description := by
  simp only [good_tx, good_id, Bool.and_eq_true, Bool.not_eq_true'] at h
  obtain ⟨⟨⟨h1, h2⟩, h3⟩, h4⟩ := h
  refine ⟨?_, ?_, of_decide_eq_false h3, of_decide_eq_false h4⟩
  · intro hm
    simp at h1
    exact h1 hm
  · intro hm
    simp at h2
    exact h2 hm

theorem load_existing_ids_append (l d : List Str) :
    load_existing_ids (l ++ d) = load_existing_ids l ++ load_existing_ids d := by
  simp [load_existing_ids]

/-- The single-id comment of a hygienic record parses back to its id. -/
theorem parse_single_of_good {tx : B4Transaction} (h : good_tx tx = true) :
    parseCommentIds (mkComment tx.description tx.id) = [tx.id] := by
  obtain ⟨hu, hb, hm, hd⟩ := good_tx_spec h
  exact parse_mkComment_single _ _ hd hm hb hu

/-- The marker cannot occur in `"[Extern] " ++ desc` if it does not occur
in `desc`: an occurrence would need `'['` inside `"Extern] "` or `'B'` at
position 1. -/
theorem ext_marker_not_infix {y : Str} (hy : ¬ marker <:+: y) :
    ¬ marker <:+: ("[Extern] ".data ++ y) := by
  intro h
  obtain ⟨i, hp⟩ := (infix_iff_occ _ _).mp h
  by_cases hi : i < 9
  · have h0 := prefix_getElem? hp (j := 0) (by rw [marker_length]; omega)
    rw [List.getElem?_drop, Nat.add_zero, List.getElem?_append,
        if_pos (show i < ("[Extern] ".data).length from hi)] at h0
    interval_cases i
    · have h1 := prefix_getElem? hp (j := 1) (by rw [marker_length]; omega)
      rw [List.getElem?_drop, List.getElem?_append,
          if_pos (show 0 + 1 < ("[Extern] ".data).length by norm_num)] at h1
      exact absurd h1 (by decide)
    all_goals exact absurd h0 (by decide)
  · rw [List.drop_append_eq_append_drop,
        List.drop_eq_nil_of_le (show ("[Extern] ".data).length ≤ i by
          rw [show ("[Extern] ".data).length = 9 from rfl]
          omega),
        List.nil_append] at hp
    exact hy (hp.isInfix.trans (List.drop_suffix _ y).isInfix)

/-- The unmatched-transfer comment of a hygienic record parses back to its
id. -/
theorem parse_ext_of_good {tx : B4Transaction} (h : good_tx tx = true) :
    parseCommentIds (mkComment ("[Extern] ".data ++ tx.description) tx.id) =
      [tx.id] := by
  obtain ⟨hu, hb, hm, hd⟩ := good_tx_spec h
  exact parse_mkComment_single _ _ ( ext_marker_not_infix hd) hm hb hu

/-- The transfer-pair comment of a hygienic pair parses back to the two
constituent ids. -/
theorem parse_pair_of_good {p : TransferPair} (hs : good_tx p.source_tx = true)
    (hd : good_tx p.dest_tx = true) :
    parseCommentIds
      (mkComment ("Transfer: ".data ++ p.sender.description.take 100)
        p.combined_id) = [p.source_tx.id, p.dest_tx.id] := by
  obtain ⟨hsu, hsb, hsm, hsd⟩ := good_tx_spec hs
  obtain ⟨hdu, hdb, hdm, hdd⟩ := good_tx_spec hd
  have hsend : ¬ marker <:+: p.sender.description := by
    rw [TransferPair.sender]
    split
    · exact hsd
    · exact hdd
  have hdesc : ¬ marker <:+:
      ("Transfer: ".data ++ p.sender.description.take 100) :=
    no_lbrack_not_infix (by decide) (not_infix_take 100 hsend)
  exact parse_mkComment_pair _ _ _ hdesc hsm hsb hsu hdm hdb hdu

/-- One run state extends another: ledger, existing ids and transfer batch
only ever grow by appending. -/
def StateExtends (st st' : RunState) : Prop :=
  (∃ d, st'.ledger = st.ledger ++ d) ∧ (∃ d, st'.existing = st.existing ++ d) ∧
    (∃ d, st'.transfers = st.transfers ++ d)

theorem stateExtends_refl (st : RunState) : StateExtends st st :=
  ⟨⟨[], by simp⟩, ⟨[], by simp⟩, ⟨[], by simp⟩⟩

theorem stateExtends_trans {s1 s2 s3 : RunState} (h1 : StateExtends s1 s2)
    (h2 : StateExtends s2 s3) : StateExtends s1 s3 := by
  obtain ⟨⟨a1, ha1⟩, ⟨b1, hb1⟩, ⟨c1, hc1⟩⟩ := h1
  obtain ⟨⟨a2, ha2⟩, ⟨b2, hb2⟩, ⟨c2, hc2⟩⟩ := h2
  exact ⟨⟨a1 ++ a2, by rw [ha2, ha1, List.append_assoc]⟩,
    ⟨b1 ++ b2, by rw [hb2, hb1, List.append_assoc]⟩,
    ⟨c1 ++ c2, by rw [hc2, hc1, List.append_assoc]⟩⟩

theorem process_record_extends (minD : ℤ) (acc : Str) (st : RunState)
    (r : RawRec) : StateExtends st (process_record minD acc st r) := by
  rw [process_record]
  split
  · exact stateExtends_refl st
  · split
    · exact ⟨⟨[], by simp⟩, ⟨[], by simp⟩, ⟨[], by simp⟩⟩
    · next tx _ =>
      split
      · exact stateExtends_refl st
      · split
        · exact ⟨⟨[], by simp⟩, ⟨[], by simp⟩, ⟨[], by simp⟩⟩
        · split
          · exact ⟨⟨[], by simp⟩, ⟨[], by simp⟩, ⟨[tx], rfl⟩⟩
          · exact ⟨⟨[mkComment tx.description tx.id], rfl⟩, ⟨[tx.id], rfl⟩,
              ⟨[], by simp [import_single_transaction]⟩⟩

theorem foldl_extends {α : Type} (step : RunState → α → RunState)
    (hstep : ∀ st a, StateExtends st (step st a)) :
    ∀ (l : List α) (st : RunState), StateExtends st (l.foldl step st) := by
  intro l
  induction l with
  | nil => exact fun st => stateExtends_refl st
  | cons a l ih =>
    intro st
    exact stateExtends_trans (hstep st a) (ih (step st a))

theorem process_file_extends (accounts : List Str) (minD : ℤ) (st : RunState)
    (f : Str × List RawRec) :
    StateExtends st (process_file accounts minD st f) := by
  rw [process_file]
  split
  · exact foldl_extends _ (fun st' r => process_record_extends minD f.1 st' r)
      f.2 st
  · exact stateExtends_refl st

/-- Every id in `existing_ids` is recoverable from the ledger comments. -/
def ExistingCovered (st : RunState) : Prop :=
  ∀ id ∈ st.existing, id ∈ load_existing_ids st.ledger

/-- Every collected transfer is hygienic. -/
def TransfersGood (st : RunState) : Prop :=
  ∀ tx ∈ st.transfers, good_tx tx = true

theorem import_single_covered {tx : B4Transaction} {st : RunState}
    (hc : ExistingCovered st) (hg : good_tx tx = true) :
    ExistingCovered (import_single_transaction tx st) := by
  intro id hid
  simp only [import_single_transaction] at hid ⊢
  rw [load_existing_ids_append]
  rcases List.mem_append.mp hid with h | h
  · exact List.mem_append.mpr (Or.inl (hc id h))
  · simp only [List.mem_singleton] at h
    subst h
    refine List.mem_append.mpr (Or.inr ?_)
    simp [load_existing_ids, parse_single_of_good hg]

theorem process_record_covered (minD : ℤ) (acc : Str) {st : RunState}
    (r : RawRec) (hc : ExistingCovered st)
    (hr : (B4Transaction.from_json r acc).all good_tx = true) :
    ExistingCovered (process_record minD acc st r) := by
  rw [process_record]
  split
  · exact hc
  · split
    · exact hc
    · next tx hjs =>
      split
      · exact hc
      · split
        · exact hc
        · split
          · exact hc
          · refine import_single_covered hc ?_
            rw [hjs] at hr
            simpa [Option.all] using hr

theorem process_record_tgood (minD : ℤ) (acc : Str) {st : RunState}
    (r : RawRec) (ht : TransfersGood st)
    (hr : (B4Transaction.from_json r acc).all good_tx = true) :
    TransfersGood (process_record minD acc st r) := by
  rw [process_record]
  split
  · exact ht
  · split
    · exact ht
    · next tx hjs =>
      split
      · exact ht
      · split
        · exact ht
        · split
          · intro t htm
            rcases List.mem_append.mp htm with h | h
            · exact ht t h
            · simp only [List.mem_singleton] at h
              subst h
              rw [hjs] at hr
              simpa [Option.all] using hr
          · exact ht

/-- Joint invariant of the direct-import pass. -/
def Inv (st : RunState) : Prop := ExistingCovered st ∧ TransfersGood st

theorem foldl_pres {α : Type} (step : RunState → α → RunState)
    (P : RunState → Prop) :
    ∀ (l : List α), (∀ st a, a ∈ l → P st → P (step st a)) →
      ∀ st, P st → P (l.foldl step st) := by
  intro l
  induction l with
  | nil => exact fun _ st h => h
  | cons a l ih =>
    intro hstep st h
    exact ih (fun st' b hb => hstep st' b (List.mem_cons_of_mem a hb))
      (step st a) (hstep st a (List.mem_cons_self a l) h)

theorem process_record_inv (minD : ℤ) (acc : Str) {st : RunState} (r : RawRec)
    (h : Inv st) (hr : (B4Transaction.from_json r acc).all good_tx = true) :
    Inv (process_record minD acc st r) :=
  ⟨process_record_covered minD acc r h.1 hr,
    process_record_tgood minD acc r h.2 hr⟩

theorem process_file_inv (accounts : List Str) (minD : ℤ) {st : RunState}
    (f : Str × List RawRec) (h : Inv st)
    (hf : ∀ r ∈ f.2, (B4Transaction.from_json r f.1).all good_tx = true) :
    Inv (process_file accounts minD st f) := by
  rw [process_file]
  split
  · exact foldl_pres _ Inv f.2
      (fun st' r hr hinv => process_record_inv minD f.1 r hinv (hf r hr)) st h
  · exact h

/-- A survivor of the direct-import pass: known account, raw status
`"BOOK"`, parse success, not dropped by the date filter. -/
def Surv (accounts : List Str) (minD : ℤ) (f : Str × List RawRec) (r : RawRec)
    (tx : B4Transaction) : Prop :=
  accounts.contains f.1 = true ∧ r.BookgSts = some "BOOK".data ∧
    B4Transaction.from_json r f.1 = some tx ∧ ¬ tx.booking_date < minD

/-- The record's id is already recoverable from the ledger, or the record
sits in the collected transfer batch. -/
def IdAvail (st : RunState) (tx : B4Transaction) : Prop :=
  tx.id ∈ load_existing_ids st.ledger ∨ tx ∈ st.transfers

theorem idAvail_mono {st st' : RunState} (hext : StateExtends st st')
    {tx : B4Transaction} : IdAvail st tx → IdAvail st' tx := by
  rintro (h | h)
  · obtain ⟨d, hd⟩ := hext.1
    rw [IdAvail, hd, load_existing_ids_append]
    exact Or.inl (List.mem_append.mpr (Or.inl h))
  · obtain ⟨d, hd⟩ := hext.2.2
    rw [IdAvail, hd]
    exact Or.inr (List.mem_append.mpr (Or.inl h))

theorem process_record_self_avail (minD : ℤ) (acc : Str) {st : RunState}
    (r : RawRec) (tx : B4Transaction) (hc : ExistingCovered st)
    (hr : (B4Transaction.from_json r acc).all good_tx = true)
    (hs1 : r.BookgSts = some "BOOK".data)
    (hs2 : B4Transaction.from_json r acc = some tx)
    (hs3 : ¬ tx.booking_date < minD) :
    IdAvail (process_record minD acc st r) tx := by
  rw [process_record, if_neg (by simp [hs1])]
  split
  · next heq =>
    rw [hs2] at heq
    cases heq
  · next tx' heq =>
    rw [hs2] at heq
    injection heq with heq
    subst heq
    rw [if_neg hs3]
    by_cases h3 : st.existing.contains tx.id = true
    · rw [if_pos h3]
      exact Or.inl (hc tx.id (contains_true_iff.mp h3))
    · rw [if_neg h3]
      by_cases h4 : tx.is_transfer = true
      · rw [if_pos h4]
        exact Or.inr (List.mem_append.mpr (Or.inr (List.mem_singleton.mpr rfl)))
      · rw [if_neg h4]
        refine Or.inl ?_
        show tx.id ∈ load_existing_ids (st.ledger ++ [mkComment tx.description tx.id])
        rw [load_existing_ids_append]
        refine List.mem_append.mpr (Or.inr ?_)
        have hg : good_tx tx = true := by
          rw [hs2] at hr
          simpa [Option.all] using hr
        simp [load_existing_ids, parse_single_of_good hg]

theorem records_avail (minD : ℤ) (acc : Str) (rs : List RawRec) :
    ∀ st : RunState, Inv st →
      (∀ r ∈ rs, (B4Transaction.from_json r acc).all good_tx = true) →
      ∀ r ∈ rs, ∀ tx : B4Transaction,
        r.BookgSts = some "BOOK".data →
        B4Transaction.from_json r acc = some tx → ¬ tx.booking_date < minD →
        IdAvail (rs.foldl (process_record minD acc) st) tx := by
  induction rs with
  | nil =>
    intro st _ _ r hr
    simp at hr
  | cons r0 rs ih =>
    intro st hinv hgood r hr tx hs1 hs2 hs3
    rw [List.foldl_cons]
    rcases List.mem_cons.mp hr with rfl | hr'
    · have h1 := process_record_self_avail minD acc r tx hinv.1
        (hgood r (List.mem_cons_self _ _)) hs1 hs2 hs3
      exact idAvail_mono (foldl_extends _
        (fun st' r' => process_record_extends minD acc st' r') rs _) h1
    · exact ih (process_record minD acc st r0)
        (process_record_inv minD acc r0 hinv (hgood r0 (List.mem_cons_self _ _)))
        (fun r' h' => hgood r' (List.mem_cons_of_mem _ h')) r hr' tx hs1 hs2 hs3

theorem file_avail (accounts : List Str) (minD : ℤ) (f : Str × List RawRec)
    {st : RunState} (hinv : Inv st)
    (hgood : ∀ r ∈ f.2, (B4Transaction.from_json r f.1).all good_tx = true) :
    ∀ r ∈ f.2, ∀ tx, Surv accounts minD f r tx →
      IdAvail (process_file accounts minD st f) tx := by
  intro r hr tx hs
  rw [process_file, if_pos hs.1]
  exact records_avail minD f.1 f.2 st hinv hgood r hr tx hs.2.1 hs.2.2.1 hs.2.2.2

theorem phase2_avail (accounts : List Str) (minD : ℤ) :
    ∀ (files : List (Str × List RawRec)) (st : RunState), Inv st →
      (∀ f ∈ files, ∀ r ∈ f.2,
        (B4Transaction.from_json r f.1).all good_tx = true) →
      ∀ f ∈ files, ∀ r ∈ f.2, ∀ tx, Surv accounts minD f r tx →
        IdAvail (files.foldl (process_file accounts minD) st) tx := by
  intro files
  induction files with
  | nil =>
    intro st _ _ f hf
    simp at hf
  | cons f0 fs ih =>
    intro st hinv H g hg r hr tx hs
    rw [List.foldl_cons]
    rcases List.mem_cons.mp hg with rfl | hg'
    · have h1 := file_avail accounts minD g hinv (H g (List.mem_cons_self _ _))
        r hr tx hs
      exact idAvail_mono (foldl_extends _
        (fun st' f' => process_file_extends accounts minD st' f') fs _) h1
    · exact ih (process_file accounts minD st f0)
        (process_file_inv accounts minD f0 hinv (H f0 (List.mem_cons_self _ _)))
        (fun f' h' => H f' (List.mem_cons_of_mem _ h')) g hg' r hr tx hs

theorem import_pair_extends (p : TransferPair) (st : RunState) :
    StateExtends st (import_transfer_pair p st) :=
  ⟨⟨_, rfl⟩, ⟨_, rfl⟩, ⟨[], by simp [import_transfer_pair]⟩⟩

theorem import_unm_extends (tx : B4Transaction) (st : RunState) :
    StateExtends st (import_unmatched_transfer tx st) :=
  ⟨⟨_, rfl⟩, ⟨[], by simp [import_unmatched_transfer]⟩,
    ⟨[], by simp [import_unmatched_transfer]⟩⟩

theorem load_existing_ids_single (c : Str) :
    load_existing_ids [c] = parseCommentIds c := by
  simp [load_existing_ids]

theorem pairs_fold_ids (pairs : List TransferPair) :
    ∀ st : RunState,
      (∀ p ∈ pairs, good_tx p.source_tx = true ∧ good_tx p.dest_tx = true) →
      ∀ p ∈ pairs,
        p.source_tx.id ∈ load_existing_ids
          ((pairs.foldl (fun s q => import_transfer_pair q s) st).ledger) ∧
        p.dest_tx.id ∈ load_existing_ids
          ((pairs.foldl (fun s q => import_transfer_pair q s) st).ledger) := by
  induction pairs with
  | nil =>
    intro st _ p hp
    simp at hp
  | cons q qs ih =>
    intro st hgood p hp
    rw [List.foldl_cons]
    rcases List.mem_cons.mp hp with rfl | hmem
    · have hq := hgood p (List.mem_cons_self _ _)
      have h1 : p.source_tx.id ∈
            load_existing_ids ((import_transfer_pair p st).ledger) ∧
          p.dest_tx.id ∈ load_existing_ids ((import_transfer_pair p st).ledger) := by
        show p.source_tx.id ∈ load_existing_ids (st.ledger ++
            [mkComment ("Transfer: ".data ++ p.sender.description.take 100)
              p.combined_id]) ∧
          p.dest_tx.id ∈ load_existing_ids (st.ledger ++
            [mkComment ("Transfer: ".data ++ p.sender.description.take 100)
              p.combined_id])
        rw [load_existing_ids_append, load_existing_ids_single,
          parse_pair_of_good hq.1 hq.2]
        constructor
        · exact List.mem_append.mpr (Or.inr (by simp))
        · exact List.mem_append.mpr (Or.inr (by simp))
      obtain ⟨d, hd⟩ := (foldl_extends _ (fun s q' => import_pair_extends q' s)
        qs (import_transfer_pair p st)).1
      rw [hd, load_existing_ids_append]
      exact ⟨List.mem_append.mpr (Or.inl h1.1), List.mem_append.mpr (Or.inl h1.2)⟩
    · exact ih _ (fun p' h' => hgood p' (List.mem_cons_of_mem _ h')) p hmem

theorem unm_fold_ids (unm : List B4Transaction) :
    ∀ st : RunState, (∀ u ∈ unm, good_tx u = true) →
      ∀ u ∈ unm,
        u.id ∈ load_existing_ids
          ((unm.foldl (fun s t => import_unmatched_transfer t s) st).ledger) := by
  induction unm with
  | nil =>
    intro st _ u hu
    simp at hu
  | cons v vs ih =>
    intro st hgood u hu
    rw [List.foldl_cons]
    rcases List.mem_cons.mp hu with rfl | hmem
    · have h1 : u.id ∈ load_existing_ids ((import_unmatched_transfer u st).ledger) := by
        show u.id ∈ load_existing_ids (st.ledger ++
          [mkComment ("[Extern] ".data ++ u.description) u.id])
        rw [load_existing_ids_append, load_existing_ids_single,
          parse_ext_of_good (hgood u (List.mem_cons_self _ _))]
        exact List.mem_append.mpr (Or.inr (by simp))
      obtain ⟨d, hd⟩ := (foldl_extends _ (fun s t => import_unm_extends t s)
        vs (import_unmatched_transfer u st)).1
      rw [hd, load_existing_ids_append]
      exact List.mem_append.mpr (Or.inl h1)
    · exact ih _ (fun u' h' => hgood u' (List.mem_cons_of_mem _ h')) u hmem

theorem phase3_covers (tol : ℤ) (st₂ : RunState) (hinv : Inv st₂) :
    ∀ tx ∈ st₂.transfers,
      tx.id ∈ load_existing_ids
        (((find_matches tol st₂.transfers st₂.existing).2.foldl
            (fun s t => import_unmatched_transfer t s)
          ((find_matches tol st₂.transfers st₂.existing).1.foldl
            (fun s p => import_transfer_pair p s) st₂)).ledger) := by
  intro tx htx
  have hcov := fm_aux_cover tol st₂.existing st₂.transfers [] tx htx
  have hgoodpairs : ∀ p ∈ (find_matches tol st₂.transfers st₂.existing).1,
      good_tx p.source_tx = true ∧ good_tx p.dest_tx = true := by
    intro p hp
    have hsub := fm_aux_pairs_sublist tol st₂.existing st₂.transfers [] p hp
    exact ⟨hinv.2 _ (hsub.subset (by simp)), hinv.2 _ (hsub.subset (by simp))⟩
  have hgoodunm : ∀ u ∈ (find_matches tol st₂.transfers st₂.existing).2,
      good_tx u = true := fun u hu =>
    hinv.2 u (fm_aux_unm_mem tol st₂.existing st₂.transfers [] u hu)
  rcases hcov with h | h | h | h
  · simp at h
  · have h1 := hinv.1 tx.id h
    obtain ⟨d, hd⟩ := (stateExtends_trans
      (foldl_extends _ (fun s q => import_pair_extends q s)
        (find_matches tol st₂.transfers st₂.existing).1 st₂)
      (foldl_extends _ (fun s t => import_unm_extends t s)
        (find_matches tol st₂.transfers st₂.existing).2 _)).1
    rw [hd, load_existing_ids_append]
    exact List.mem_append.mpr (Or.inl h1)
  · simp only [pairIds, List.mem_flatMap, List.mem_cons, List.mem_singleton,
      List.not_mem_nil, or_false] at h
    obtain ⟨p, hp, hid⟩ := h
    have hids := pairs_fold_ids
      (find_matches tol st₂.transfers st₂.existing).1 st₂ hgoodpairs p hp
    obtain ⟨d, hd⟩ := (foldl_extends _ (fun s t => import_unm_extends t s)
      (find_matches tol st₂.transfers st₂.existing).2 _).1
    rw [hd, load_existing_ids_append]
    rcases hid with hid | hid
    · exact List.mem_append.mpr (Or.inl (hid ▸ hids.1))
    · exact List.mem_append.mpr (Or.inl (hid ▸ hids.2))
  · simp only [List.mem_map] at h
    obtain ⟨u, hu, hid⟩ := h
    have := unm_fold_ids (find_matches tol st₂.transfers st₂.existing).2
      ((find_matches tol st₂.transfers st₂.existing).1.foldl
        (fun s p => import_transfer_pair p s) st₂) hgoodunm u hu
    exact hid ▸ this

theorem run_covers (tol minD : ℤ) (accounts : List Str)
    (files : List (Str × List RawRec)) (L : List Str)
    (H : ∀ f ∈ files, ∀ r ∈ f.2,
      (B4Transaction.from_json r f.1).all good_tx = true) :
    ∀ f ∈ files, ∀ r ∈ f.2, ∀ tx, Surv accounts minD f r tx →
      tx.id ∈ load_existing_ids (run_import tol minD accounts files L).ledger := by
  intro f hf r hr tx hs
  have hInv1 : Inv ⟨L, load_existing_ids L, [], 0, 0, 0, 0⟩ :=
    ⟨fun id h => h, fun t ht => absurd ht (List.not_mem_nil t)⟩
  have hInv2 : Inv (files.foldl (process_file accounts minD)
      ⟨L, load_existing_ids L, [], 0, 0, 0, 0⟩) :=
    foldl_pres _ Inv files
      (fun st f' hf' hi => process_file_inv accounts minD f' hi (H f' hf'))
      _ hInv1
  have havail := phase2_avail accounts minD files _ hInv1 H f hf r hr tx hs
  show tx.id ∈ load_existing_ids
    (((find_matches tol
        (files.foldl (process_file accounts minD)
          ⟨L, load_existing_ids L, [], 0, 0, 0, 0⟩).transfers
        (files.foldl (process_file accounts minD)
          ⟨L, load_existing_ids L, [], 0, 0, 0, 0⟩).existing).2.foldl
      (fun s t => import_unmatched_transfer t s)
      ((find_matches tol
          (files.foldl (process_file accounts minD)
            ⟨L, load_existing_ids L, [], 0, 0, 0, 0⟩).transfers
          (files.foldl (process_file accounts minD)
            ⟨L, load_existing_ids L, [], 0, 0, 0, 0⟩).existing).1.foldl
        (fun s p => import_transfer_pair p s)
        (files.foldl (process_file accounts minD)
          ⟨L, load_existing_ids L, [], 0, 0, 0, 0⟩))).ledger)
  rcases havail with h | h
  · obtain ⟨d, hd⟩ := (stateExtends_trans
      (foldl_extends _ (fun s q => import_pair_extends q s) _ _)
      (foldl_extends _ (fun s t => import_unm_extends t s) _ _)).1
    rw [hd, load_existing_ids_append]
    exact List.mem_append.mpr (Or.inl h)
  · exact phase3_covers tol _ hInv2 tx h

/-- State predicate for the second run: nothing has been imported, the
ledger and existing-id set are the initial ones, and the transfer batch is
empty. -/
def RunUnchanged (L₁ : List Str) (st : RunState) : Prop :=
  st.ledger = L₁ ∧ st.existing = load_existing_ids L₁ ∧ st.transfers = [] ∧
    st.new_transactions = 0 ∧ st.new_transfers = 0

theorem process_record_unchanged (minD : ℤ) (acc : Str) (L₁ : List Str)
    (r : RawRec) {st : RunState} (hQ : RunUnchanged L₁ st)
    (hcov : ∀ tx, r.BookgSts = some "BOOK".data →
      B4Transaction.from_json r acc = some tx → ¬ tx.booking_date < minD →
      tx.id ∈ load_existing_ids L₁) :
    RunUnchanged L₁ (process_record minD acc st r) := by
  rw [process_record]
  split
  · exact hQ
  · next hst =>
    split
    · exact hQ
    · next tx heq =>
      split
      · exact hQ
      · next hdate =>
        have hid : tx.id ∈ load_existing_ids L₁ :=
          hcov tx (not_ne_iff.mp hst) heq hdate
        rw [if_pos (contains_true_iff.mpr (by rw [hQ.2.1]; exact hid))]
        exact hQ

theorem process_file_unchanged (accounts : List Str) (minD : ℤ) (L₁ : List Str)
    (f : Str × List RawRec) {st : RunState} (hQ : RunUnchanged L₁ st)
    (hcov : ∀ r ∈ f.2, ∀ tx, Surv accounts minD f r tx →
      tx.id ∈ load_existing_ids L₁) :
    RunUnchanged L₁ (process_file accounts minD st f) := by
  rw [process_file]
  split
  · next hacc =>
    exact foldl_pres _ (RunUnchanged L₁) f.2
      (fun st' r hr hq => process_record_unchanged minD f.1 L₁ r hq
        (fun tx h1 h2 h3 => hcov r hr tx ⟨hacc, h1, h2, h3⟩)) st hQ
  · exact hQ

theorem run_zero (tol minD : ℤ) (accounts : List Str)
    (files : List (Str × List RawRec)) (L₁ : List Str)
    (Hcov : ∀ f ∈ files, ∀ r ∈ f.2, ∀ tx, Surv accounts minD f r tx →
      tx.id ∈ load_existing_ids L₁) :
    (run_import tol minD accounts files L₁).new_transactions = 0 ∧
    (run_import tol minD accounts files L₁).new_transfers = 0 := by
  have hQ1 : RunUnchanged L₁ ⟨L₁, load_existing_ids L₁, [], 0, 0, 0, 0⟩ :=
    ⟨rfl, rfl, rfl, rfl, rfl⟩
  have hQ2 : RunUnchanged L₁ (files.foldl (process_file accounts minD)
      ⟨L₁, load_existing_ids L₁, [], 0, 0, 0, 0⟩) :=
    foldl_pres _ (RunUnchanged L₁) files
      (fun st f hf hq => process_file_unchanged accounts minD L₁ f hq
        (fun r hr tx hs => Hcov f hf r hr tx hs)) _ hQ1
  have hfm : find_matches tol
      (files.foldl (process_file accounts minD)
        ⟨L₁, load_existing_ids L₁, [], 0, 0, 0, 0⟩).transfers
      (files.foldl (process_file accounts minD)
        ⟨L₁, load_existing_ids L₁, [], 0, 0, 0, 0⟩).existing = ([], []) := by
    rw [hQ2.2.2.1]
    rfl
  show ((find_matches tol
      (files.foldl (process_file accounts minD)
        ⟨L₁, load_existing_ids L₁, [], 0, 0, 0, 0⟩).transfers
      (files.foldl (process_file accounts minD)
        ⟨L₁, load_existing_ids L₁, [], 0, 0, 0, 0⟩).existing).2.foldl
        (fun s t => import_unmatched_transfer t s)
        ((find_matches tol
            (files.foldl (process_file accounts minD)
              ⟨L₁, load_existing_ids L₁, [], 0, 0, 0, 0⟩).transfers
            (files.foldl (process_file accounts minD)
              ⟨L₁, load_existing_ids L₁, [], 0, 0, 0, 0⟩).existing).1.foldl
          (fun s p => import_transfer_pair p s)
          (files.foldl (process_file accounts minD)
            ⟨L₁, load_existing_ids L₁, [], 0, 0, 0, 0⟩))).new_transactions = 0 ∧
    ((find_matches tol
      (files.foldl (process_file accounts minD)
        ⟨L₁, load_existing_ids L₁, [], 0, 0, 0, 0⟩).transfers
      (files.foldl (process_file accounts minD)
        ⟨L₁, load_existing_ids L₁, [], 0, 0, 0, 0⟩).existing).2.foldl
        (fun s t => import_unmatched_transfer t s)
        ((find_matches tol
            (files.foldl (process_file accounts minD)
              ⟨L₁, load_existing_ids L₁, [], 0, 0, 0, 0⟩).transfers
            (files.foldl (process_file accounts minD)
              ⟨L₁, load_existing_ids L₁, [], 0, 0, 0, 0⟩).existing).1.foldl
          (fun s p => import_transfer_pair p s)
          (files.foldl (process_file accounts minD)
            ⟨L₁, load_existing_ids L₁, [], 0, 0, 0, 0⟩))).new_transfers = 0
  rw [hfm]
  exact ⟨hQ2.2.2.2.1, hQ2.2.2.2.2⟩

/-- C1 amended: the full import is idempotent — the second run over the
same source files, accounts and resulting ledger creates zero new
transactions and zero new transfers — provided every parsed record is
marker-hygienic: its id contains no `_`, no `]` and no embedded marker
prefix, and its description contains no marker prefix.  (Without that
hygiene the `[B4ID:...]` marker does not round-trip and idempotence fails,
see the counterexample.) -/
theorem C1_idempotent_import (tol minD : ℤ) (accounts : List Str)
    (files : List (Str × List RawRec)) (ledger₀ : List Str)
    (H : ∀ f ∈ files, ∀ r ∈ f.2,
      (B4Transaction.from_json r f.1).all good_tx = true) :
    (run_import tol minD accounts files
      (run_import tol minD accounts files ledger₀).ledger).new_transactions = 0 ∧
    (run_import tol minD accounts files
      (run_import tol minD accounts files ledger₀).ledger).new_transfers = 0 :=
  run_zero tol minD accounts files _
    (run_covers tol minD accounts files ledger₀ H)

/-- A booked record whose id `"a]b"` contains `]`. -/
def c1rec : RawRec :=
  ⟨some "a]b".data, some (some 100), some (some 5), some "d".data,
    some "CRDT".data, none, some "BOOK".data⟩

/-- C1 counterexample: with a record id containing `]` the second run over
the first run's ledger imports the record AGAIN (one new transaction, not
zero) — the claim's unconditional idempotence is false. -/
theorem C1_idempotent_import_counterexample :
    (run_import 3 0 ["A".data] [("A".data, [c1rec])] []).new_transactions = 1 ∧
    (run_import 3 0 ["A".data] [("A".data, [c1rec])]
      (run_import 3 0 ["A".data] [("A".data, [c1rec])] []).ledger).new_transactions
      = 1 := by
  decide

/-- A marker-hygienic booked record. -/
def c1good : RawRec :=
  ⟨some "ab".data, some (some 100), some (some 5), some "d".data,
    some "CRDT".data, none, some "BOOK".data⟩

theorem C1_idempotent_import_witness :
    (∀ f ∈ [(("A".data : Str), [c1good])], ∀ r ∈ f.2,
      (B4Transaction.from_json r f.1).all good_tx = true) ∧
    (run_import 3 0 ["A".data] [("A".data, [c1good])]
      (run_import 3 0 ["A".data] [("A".data, [c1good])] []).ledger).new_transactions
      = 0 :=
  ⟨by decide,
    (C1_idempotent_import 3 0 ["A".data] [("A".data, [c1good])] [] (by decide)).1⟩

end Baezi
